import Mathlib

/-!
# Shallow embedding of the NLBacktester backtesting engine

This file embeds the backtesting engine (`runBacktest` and its helpers
`calculatePercentChange`, `checkSimpleCondition`, `checkConsecutiveCondition`,
`checkTechnicalCondition`, `checkCondition`, `calculateAmount`) together with
the gap / day-trading-signal detectors from the indicator module
(`detectGaps`, `detectDayTradingSignals`), and proves properties of the
embedding corresponding to the specification's claims.

Modelling conventions:
* JavaScript numbers are modelled as exact rationals (`ℚ`) throughout the
  simulation; division is rational division (total, with `x / 0 = 0`).  The
  metrics path that can genuinely produce IEEE `NaN` (the Sharpe-ratio
  computation) is modelled separately with an explicit IEEE-style value type
  (`JsNum`) so that `NaN` propagation is captured faithfully; that model uses
  a single zero (no `-0`).
* Calendar dates are modelled as natural numbers ordered chronologically
  (ISO date strings sort lexicographically, which is chronological order).
  The ISO week-number / month / year extractions used only for the
  weekly/monthly boundary flags are modelled by a fixed stand-in calendar
  (`d / 7`, `d / 30 % 12`, `d / 360`); no claim depends on calendar details.
* JavaScript objects used as string-keyed maps (`positions`, `positionCost`,
  `stockData`, `dayTradingPositions`, `historyData`) are modelled as
  insertion-ordered association lists, matching JS object key order.
* The condition language embeds the variants exercised by the engine's
  claims: `simple`, `consecutive`, and the `pattern` names that the engine's
  pattern table maps to the `gap` / `day_trading_signal` indicators.  Pattern
  names outside the table (which the engine evaluates to `false`) are
  represented by a dedicated constructor.
* Pure logging statements of the source are dropped; `conditionDetails`
  (a JSON serialization stored on transactions) and the debugging-only
  `previousData` / `barData` stores are omitted as they never feed back into
  the computation.
-/

namespace NLBacktester

/-- Stock symbols (JS object keys). -/
abbrev Sym := String

/-- A daily price bar.  `openPrice` models the source's `open` field (absent
models JS `undefined`/`NaN`).  `high`/`low` are not consumed by the embedded
code paths and are omitted. -/
structure Bar where
  date : Nat
  openPrice : Option ℚ
  close : ℚ
  volume : ℚ
deriving Repr, DecidableEq

/-- JS `a || b` on a possibly-missing number: `0`, `NaN` and `undefined` are
falsy, so a missing or zero `a` falls back to `b`. -/
def jsOr (a : Option ℚ) (b : ℚ) : ℚ :=
  match a with
  | some v => if v = 0 then b else v
  | none => b

/-- Association-list lookup (first binding wins, as in a JS object). -/
def alookup {α : Type} (m : List (Sym × α)) (k : Sym) : Option α :=
  match m with
  | [] => none
  | (k', v) :: rest => if k' = k then some v else alookup rest k

/-- Association-list update: overwrite the existing binding in place, or
append a new binding at the end (JS object insertion order). -/
def aset {α : Type} (m : List (Sym × α)) (k : Sym) (v : α) : List (Sym × α) :=
  match m with
  | [] => [(k, v)]
  | (k', v') :: rest => if k' = k then (k, v) :: rest else (k', v') :: aset rest k v

/-- Association-list deletion (JS `delete obj[k]`). -/
def aremove {α : Type} (m : List (Sym × α)) (k : Sym) : List (Sym × α) :=
  match m with
  | [] => []
  | (k', v') :: rest => if k' = k then rest else (k', v') :: aremove rest k

/-- JS `Math.abs` on a (finite) number. -/
def jsAbs (x : ℚ) : ℚ := if x < 0 then -x else x

/-- JS `Math.min` on (finite) numbers. -/
def jsMin (a b : ℚ) : ℚ := if a ≤ b then a else b

theorem jsAbs_eq_abs (x : ℚ) : jsAbs x = |x| := by
  unfold jsAbs
  split
  · exact (abs_of_neg (by assumption)).symm
  · exact (abs_of_nonneg (not_lt.mp (by assumption))).symm

theorem jsMin_eq_min (a b : ℚ) : jsMin a b = min a b := by
  unfold jsMin
  split
  · exact (min_eq_left (by assumption)).symm
  · exact (min_eq_right (le_of_not_le (by assumption))).symm

/-- `calculatePercentChange(current, previous)`. -/
def calculatePercentChange (current previous : ℚ) : ℚ :=
  if previous = 0 then 0 else ((current - previous) / previous) * 100

/-- Comparison operators of `checkSimpleCondition`; `other` stands for any
unrecognized operator string (the `default` branch). -/
inductive CmpOp
  | greater_than | greater_than_equal | less_than | less_than_equal | equal | other
deriving Repr, DecidableEq

/-- `checkSimpleCondition(value, operator, threshold)`. -/
def checkSimpleCondition (value : ℚ) (op : CmpOp) (threshold : ℚ) : Bool :=
  match op with
  | .greater_than => value > threshold
  | .greater_than_equal => value ≥ threshold
  | .less_than => value < threshold
  | .less_than_equal => value ≤ threshold
  | .equal => value = threshold
  | .other => false

/-- Directions for the consecutive-days condition. -/
inductive Direction | up | down | unchanged
deriving Repr, DecidableEq

/-- The adjacent-pair test in the loop body of `checkConsecutiveCondition`:
the loop returns `false` at a pair iff this is `false`. -/
def consecutivePairOK (direction : Direction) (previous current : ℚ) : Bool :=
  match direction with
  | .up => ¬ (current ≤ previous)
  | .down => ¬ (current ≥ previous)
  | .unchanged => current = previous

/-- The scan of adjacent pairs performed by `checkConsecutiveCondition`'s
`for` loop over the trailing window. -/
def consecutiveScan (direction : Direction) : List Bar → Bool
  | a :: b :: rest =>
      consecutivePairOK direction a.close b.close && consecutiveScan direction (b :: rest)
  | _ => true

/-- JS `arr.slice(-n)`: the last `n` elements, except that `slice(-0)` is
`slice(0)`, the whole array. -/
def sliceLast {α : Type} (l : List α) (n : Nat) : List α :=
  if n = 0 then l else l.drop (l.length - n)

/-- `checkConsecutiveCondition(priceHistory, days, direction)`. -/
def checkConsecutiveCondition (priceHistory : List Bar) (days : Nat)
    (direction : Direction) : Bool :=
  if priceHistory.length < days then false
  else consecutiveScan direction (sliceLast priceHistory days)

/-! ## Gap and day-trading-signal detectors (indicator module)

Only the element at the last index of the produced arrays is ever consumed by
`checkTechnicalCondition`, so the detectors are embedded element-wise. -/

/-- A detected gap event: signed percent gap and its `up`/`down` tag
(a zero gap is tagged `down`, as in the source's `gapPercent > 0 ? ... `). -/
structure Gap where
  value : ℚ
  up : Bool
deriving Repr, DecidableEq

/-- `detectGaps(data, minGapPercent)` at index `i`: for `1 ≤ i < data.length`,
the percent gap between bar `i`'s open and bar `i-1`'s close, recorded only
when `|gap| ≥ minGapPercent`.  A missing open (JS `NaN` arithmetic) records
nothing.  Division by a zero previous close is rational-total here (`= 0`),
a simplification for degenerate zero-price bars. -/
def gapAt (data : List Bar) (minGapPercent : ℚ) (i : Nat) : Option Gap :=
  if h : 1 ≤ i ∧ i < data.length then
    let prevClose := (data.get ⟨i - 1, by omega⟩).close
    match (data.get ⟨i, h.2⟩).openPrice with
    | none => none
    | some currentOpen =>
        let gapPercent := ((currentOpen - prevClose) / prevClose) * 100
        if jsAbs gapPercent ≥ minGapPercent then some ⟨gapPercent, gapPercent > 0⟩ else none
  else none

/-- Gap direction filter of `detectDayTradingSignals` (`'up'`, `'down'`,
`'both'`). -/
inductive GapDir | up | down | both
deriving Repr, DecidableEq

/-- `detectDayTradingSignals(data, params)` at the last index: a signal is
present iff a gap exists there (threshold `0` pre-filter) whose magnitude
meets `gapThreshold` and whose direction matches `gapDirection`. -/
def dayTradingSignalAtLast (data : List Bar) (gapThreshold : ℚ) (gapDirection : GapDir) : Bool :=
  match gapAt data 0 (data.length - 1) with
  | none => false
  | some gap =>
      let meetsThreshold := jsAbs gap.value ≥ gapThreshold
      let meetsDirection :=
        gapDirection = GapDir.both ||
        (gapDirection = GapDir.up && gap.up) ||
        (gapDirection = GapDir.down && !gap.up)
      meetsThreshold && meetsDirection

/-- The pattern names of the engine's pattern table that resolve to the
`gap` / `day_trading_signal` indicators. -/
inductive PatternName
  | gap_down | gap_up | day_trade_gap_down | day_trade_gap_up | day_trade_gap_any
deriving Repr, DecidableEq

/-- Metrics of a simple condition. -/
inductive Metric | percent_change | price | volume
deriving Repr, DecidableEq

/-- Conditions, as dispatched by `checkCondition`.  `patternUnmapped` stands
for any pattern name outside the engine's pattern table (evaluated to
`false`, "not yet implemented"). -/
inductive Condition
  | simple (metric : Metric) (op : CmpOp) (value : ℚ)
  | consecutive (days : Nat) (direction : Direction)
  | pattern (name : PatternName) (threshold : Option ℚ)
  | patternUnmapped
deriving Repr, DecidableEq

/-- JS `x || d` for an optional numeric parameter: missing or `0` falls back
to the default `d` (used for `condition.threshold || 3.0` etc.). -/
def jsOrDefault (o : Option ℚ) (d : ℚ) : ℚ :=
  match o with
  | some v => if v = 0 then d else v
  | none => d

/-- The `gap` indicator branch of `checkTechnicalCondition`, as reached from
the pattern table (`operator = equal, value = 1`): the gap at the last bar,
filtered by direction, compared for exact equality with `1`. -/
def checkGapTechnical (priceHistory : List Bar) (minGapPercent : ℚ) (direction : GapDir) : Bool :=
  match gapAt priceHistory minGapPercent (priceHistory.length - 1) with
  | none => false
  | some gap =>
      if (direction = GapDir.up && !gap.up) || (direction = GapDir.down && gap.up) then false
      else checkSimpleCondition gap.value .equal 1

/-- `checkCondition(condition, data)`: dispatch on the condition type.
Pattern conditions are resolved through the engine's pattern table to the
`gap` / `day_trading_signal` technical branches; the `day_trading_signal`
branch returns whether a signal fired at the last bar (the "special handling
for boolean pattern indicators" path).  The engine passes either a
price-history context or a scalar value context; both are passed here, with
a dummy for the unused one. -/
def checkCondition (c : Condition) (priceHistory : List Bar) (value : ℚ) : Bool :=
  match c with
  | .consecutive days direction => checkConsecutiveCondition priceHistory days direction
  | .pattern name threshold =>
      match name with
      | .gap_down => checkGapTechnical priceHistory (jsOrDefault threshold 1) .down
      | .gap_up => checkGapTechnical priceHistory (jsOrDefault threshold 1) .up
      | .day_trade_gap_down => dayTradingSignalAtLast priceHistory (jsOrDefault threshold 3) .down
      | .day_trade_gap_up => dayTradingSignalAtLast priceHistory (jsOrDefault threshold 3) .up
      | .day_trade_gap_any => dayTradingSignalAtLast priceHistory (jsOrDefault threshold 3) .both
  | .patternUnmapped => false
  | .simple _ op threshold => checkSimpleCondition value op threshold

/-! ## Amount calculator -/

/-- Amount-rule types; `fixed` is the legacy alias, `other` any unrecognized
type string (handled by the `default` branch). -/
inductive AmountTag | fixed_amount | fixed | percentage | shares | other
deriving Repr, DecidableEq

/-- An order-sizing rule.  `tag` models the `type` field (`none` = missing);
`value` is `none` when missing or non-numeric. -/
structure AmountRule where
  tag : Option AmountTag
  value : Option ℚ
deriving Repr, DecidableEq

/-- The `{dollars, shares}` result of `calculateAmount`. -/
structure AmountData where
  dollars : ℚ
  shares : ℚ
deriving Repr, DecidableEq

/-- The defensive default order: `$100`, converted to shares at the current
price (`0` shares if the price is not positive). -/
def amountFloor (currentPrice : ℚ) : AmountData :=
  { dollars := 100, shares := if currentPrice > 0 then 100 / currentPrice else 0 }

/-- `calculateAmount` before its final post-check: resolve the rule's value
(with the `5`-percent / `$100` defaults) and dispatch on the amount type. -/
def calculateAmountRaw (rule : AmountRule) (portfolioValue currentPrice : ℚ) : AmountData :=
  let value : ℚ :=
    match rule.value with
    | some v => v
    | none => if rule.tag = some AmountTag.percentage then 5 else 100
  match rule.tag.getD .fixed_amount with
  | .fixed_amount | .fixed =>
      { dollars := value, shares := if currentPrice > 0 then value / currentPrice else 0 }
  | .percentage =>
      let dollars := portfolioValue * value / 100
      { dollars := dollars, shares := if currentPrice > 0 then dollars / currentPrice else 0 }
  | .shares => { dollars := value * currentPrice, shares := value }
  | .other =>
      { dollars := value, shares := if currentPrice > 0 then value / currentPrice else 0 }

/-- `calculateAmount(amountRule, portfolioValue, currentPrice)`: a missing
rule yields the `$100` default directly; otherwise the resolved amount, with
the zero-or-negative post-check overriding to the `$100` floor. -/
def calculateAmount (rule? : Option AmountRule) (portfolioValue currentPrice : ℚ) : AmountData :=
  match rule? with
  | none => amountFloor currentPrice
  | some rule =>
      let res := calculateAmountRaw rule portfolioValue currentPrice
      if res.dollars ≤ 0 ∨ res.shares ≤ 0 then amountFloor currentPrice else res

/-! ## Portfolio data model -/

/-- Transaction types. -/
inductive TxType | buy | sell | short | cover_short
deriving Repr, DecidableEq

/-- An immutable ledger record, appended on every executed order.  The
`entryPrice` / `exitPrice` / `profitLoss` fields are populated only by the
synthetic day-trading EOD exit.  (`conditionDetails`, a JSON serialization,
and the redundant `isOpenEntry` mirror of `isDayTrading` are omitted.) -/
structure Transaction where
  date : Nat
  symbol : Sym
  type : TxType
  price : ℚ
  quantity : ℚ
  amount : ℚ
  amountType : Option AmountTag
  amountValue : Option ℚ
  positionAfter : ℚ
  costBasisAfter : ℚ
  isDayTrading : Bool := false
  isEodExit : Bool := false
  entryPrice : Option ℚ := none
  exitPrice : Option ℚ := none
  profitLoss : Option ℚ := none
deriving Repr, DecidableEq

/-- One mark-to-market snapshot per trading date. -/
structure ValuePoint where
  date : Nat
  value : ℚ
  cash : ℚ
  positions : ℚ
deriving Repr, DecidableEq

/-- The mutable core state of the simulation. -/
structure Portfolio where
  cash : ℚ
  positions : List (Sym × ℚ)
  positionCost : List (Sym × ℚ)
  transactions : List Transaction
  valueHistory : List ValuePoint
deriving Repr, DecidableEq

/-- A tracked same-day (day-trading) entry, to be force-closed at EOD. -/
structure DayPos where
  entryDate : Nat
  entryPrice : ℚ
  quantity : ℚ
deriving Repr, DecidableEq

/-- Strategy action types. -/
inductive ActionType | buy | sell | short
deriving Repr, DecidableEq

/-- Action timeframes. -/
inductive Timeframe | daily | weekly | monthly
deriving Repr, DecidableEq

/-- One strategy action. -/
structure StrategyAction where
  type : ActionType
  condition : Condition
  timeframe : Timeframe
  amount : AmountRule
deriving Repr, DecidableEq

/-- A strategy: an ordered list of actions. -/
structure Strategy where
  actions : List StrategyAction
deriving Repr, DecidableEq

/-- Historical bars per symbol, in JS-object insertion order. -/
abbrev StockData := List (Sym × List Bar)

/-- The starting cash balance (`$10,000`). -/
def initialCash : ℚ := 10000

/-- `Number.MAX_SAFE_INTEGER`, the sentinel bound used for share-based sells
with no long position. -/
def maxSafeInteger : ℚ := 2 ^ 53 - 1

/-- Locate a bar for a given date (`bars.find(bar => bar.date === date)`). -/
def findBar (bars : List Bar) (date : Nat) : Option Bar :=
  bars.find? (fun bar => bar.date = date)

/-- Whether a condition is one of the day-trading gap patterns (the engine's
`isDayTrading` test). -/
def isDayTradingCondition (c : Condition) : Bool :=
  match c with
  | .pattern name _ =>
      name = PatternName.day_trade_gap_down || name = PatternName.day_trade_gap_up ||
      name = PatternName.day_trade_gap_any
  | _ => false

/-! ## Order execution -/

/-- The buy branch of the action executor (buy or short-cover).  Requires
`cash ≥ dollars`; otherwise the order is silently dropped and nothing
changes.  Day-trading entries use the open price for the recorded
transaction and are tracked for the EOD closeout. -/
def executeBuy (sym : Sym) (date : Nat) (bar : Bar) (isDayTrading : Bool)
    (amountData : AmountData) (rule : AmountRule)
    (p : Portfolio) (dayPositions : List (Sym × DayPos)) :
    Portfolio × List (Sym × DayPos) :=
  if p.cash ≥ amountData.dollars then
    let quantity := amountData.shares
    let currentQuantity := (alookup p.positions sym).getD 0
    let positions := aset p.positions sym (currentQuantity + quantity)
    -- cost-basis tracking, initialized to 0 when absent
    let oldCost := (alookup p.positionCost sym).getD 0
    let newCost :=
      if currentQuantity < 0 then
        -- covering a short: reduce the (negative) cost basis proportionally
        let coverRatio := jsMin 1 (quantity / jsAbs currentQuantity)
        oldCost * (1 - coverRatio)
      else
        -- adding to a long: accumulate the dollar amount
        oldCost + amountData.dollars
    let positionCost := aset p.positionCost sym newCost
    let cash := p.cash - amountData.dollars
    let transactionType := if currentQuantity < 0 then TxType.cover_short else TxType.buy
    let transactionPrice := if isDayTrading then jsOr bar.openPrice bar.close else bar.close
    let transactionAmount := if isDayTrading then quantity * transactionPrice else amountData.dollars
    let tx : Transaction :=
      { date := date, symbol := sym, type := transactionType,
        price := transactionPrice, quantity := quantity, amount := transactionAmount,
        amountType := rule.tag, amountValue := rule.value,
        positionAfter := currentQuantity + quantity, costBasisAfter := newCost,
        isDayTrading := isDayTrading }
    let p' : Portfolio :=
      { cash := cash, positions := positions, positionCost := positionCost,
        transactions := p.transactions ++ [tx], valueHistory := p.valueHistory }
    let dayPositions' :=
      if isDayTrading then
        aset dayPositions sym
          { entryDate := date, entryPrice := jsOr bar.openPrice bar.close, quantity := quantity }
      else dayPositions
    (p', dayPositions')
  else
    (p, dayPositions)

/-- The sell branch (liquidating a long or going short).  Share-based sells
are capped at the available long quantity (sentinel `MAX_SAFE_INTEGER` when
there is none); dollar/percentage sells against a long are capped at
`quantity × close` with the quantity back-computed; with no long position
the dollar amount is uncapped.  A sell that leaves a tracked day-trading
position at or below zero removes it from tracking. -/
def executeSell (sym : Sym) (date : Nat) (bar : Bar)
    (amountData : AmountData) (rule : AmountRule)
    (p : Portfolio) (dayPositions : List (Sym × DayPos)) :
    Portfolio × List (Sym × DayPos) :=
  let currentQuantity := (alookup p.positions sym).getD 0
  let sq_sa : ℚ × ℚ :=
    if rule.tag = some AmountTag.shares then
      let sellQuantity :=
        jsMin amountData.shares (if currentQuantity > 0 then currentQuantity else maxSafeInteger)
      (sellQuantity, sellQuantity * bar.close)
    else if currentQuantity > 0 then
      let maxSellAmount := currentQuantity * bar.close
      let sellAmount := jsMin amountData.dollars maxSellAmount
      (sellAmount / bar.close, sellAmount)
    else
      (amountData.shares, amountData.dollars)
  let sellQuantity := sq_sa.1
  let sellAmount := sq_sa.2
  let oldCost := (alookup p.positionCost sym).getD 0
  let newCost :=
    if currentQuantity > 0 then
      -- selling a long: reduce the cost basis proportionally
      let sellRatio := jsMin 1 (sellQuantity / currentQuantity)
      oldCost - oldCost * sellRatio
    else
      -- extending/opening a short: subtract the sell amount (more negative)
      oldCost - sellAmount
  let newQuantity := currentQuantity - sellQuantity
  let transactionType := if currentQuantity > 0 then TxType.sell else TxType.short
  let tx : Transaction :=
    { date := date, symbol := sym, type := transactionType,
      price := bar.close, quantity := sellQuantity, amount := sellAmount,
      amountType := rule.tag, amountValue := rule.value,
      positionAfter := newQuantity, costBasisAfter := newCost }
  let p' : Portfolio :=
    { cash := p.cash + sellAmount,
      positions := aset p.positions sym newQuantity,
      positionCost := aset p.positionCost sym newCost,
      transactions := p.transactions ++ [tx], valueHistory := p.valueHistory }
  let dayPositions' :=
    if (alookup dayPositions sym).isSome ∧ newQuantity ≤ 0 then aremove dayPositions sym
    else dayPositions
  (p', dayPositions')

/-- The explicit short branch: always executes, making the position more
negative, the cost basis lower by the dollar amount, and the cash higher by
the proceeds. -/
def executeShort (sym : Sym) (date : Nat) (bar : Bar)
    (amountData : AmountData) (rule : AmountRule) (p : Portfolio) : Portfolio :=
  let shortQuantity := amountData.shares
  let shortAmount := amountData.dollars
  let currentQuantity := (alookup p.positions sym).getD 0
  let oldCost := (alookup p.positionCost sym).getD 0
  let newCost := oldCost - shortAmount
  let newQuantity := currentQuantity - shortQuantity
  let tx : Transaction :=
    { date := date, symbol := sym, type := TxType.short,
      price := bar.close, quantity := shortQuantity, amount := shortAmount,
      amountType := rule.tag, amountValue := rule.value,
      positionAfter := newQuantity, costBasisAfter := newCost }
  { cash := p.cash + shortAmount,
    positions := aset p.positions sym newQuantity,
    positionCost := aset p.positionCost sym newCost,
    transactions := p.transactions ++ [tx], valueHistory := p.valueHistory }

/-- Execute one triggered action: pick the calculation price (the open for
day-trading gap patterns, the close otherwise), size the order, and dispatch
on the action type.  `tpv` is the total portfolio value computed at the start
of the date (not refreshed between same-date orders). -/
def executeAction (action : StrategyAction) (sym : Sym) (date : Nat) (bar : Bar) (tpv : ℚ)
    (p : Portfolio) (dayPositions : List (Sym × DayPos)) :
    Portfolio × List (Sym × DayPos) :=
  let isDayTrading := isDayTradingCondition action.condition
  let priceForCalculation := if isDayTrading then jsOr bar.openPrice bar.close else bar.close
  let amountData := calculateAmount (some action.amount) tpv priceForCalculation
  match action.type with
  | .buy => executeBuy sym date bar isDayTrading amountData action.amount p dayPositions
  | .sell => executeSell sym date bar amountData action.amount p dayPositions
  | .short => (executeShort sym date bar amountData action.amount p, dayPositions)

/-! ## The simulation loop -/

/-- Simulation-loop state: the portfolio, the tracked day-trading entries,
and the per-symbol rolling price-history buffers.  (The source's
`previousData` store is written but never read by the logic and is
omitted.) -/
structure SimState where
  portfolio : Portfolio
  dayPositions : List (Sym × DayPos)
  historyData : List (Sym × List Bar)
deriving Repr, DecidableEq

/-- Stand-in calendar: ISO week number of a modelled date. -/
def dateWeek (d : Nat) : Nat := d / 7

/-- Stand-in calendar: month of a modelled date. -/
def dateMonth (d : Nat) : Nat := d / 30 % 12

/-- Stand-in calendar: year of a modelled date. -/
def dateYear (d : Nat) : Nat := d / 360

/-- Mark-to-market accumulation over all position entries: returns
`(totalPortfolioValue, totalPositionValue)`, the first seeded with the cash
balance. -/
def markToMarket (sd : StockData) (p : Portfolio) (date : Nat) : ℚ × ℚ :=
  p.positions.foldl
    (fun acc entry =>
      match findBar ((alookup sd entry.1).getD []) date with
      | some bar => (acc.1 + bar.close * entry.2, acc.2 + bar.close * entry.2)
      | none => acc)
    (p.cash, 0)

/-- The scalar context for a simple condition: daily/weekly/monthly percent
change selected by the action's timeframe, or the bar's close/volume.
`none` models a JS `null`/`undefined` value (condition then not evaluated). -/
def simpleMetricValue (metric : Metric) (tf : Timeframe) (dailyPC : ℚ)
    (weekly monthly : Option ℚ) (bar : Bar) : Option ℚ :=
  match metric with
  | .percent_change =>
      match tf with
      | .daily => some dailyPC
      | .weekly => weekly
      | .monthly => monthly
  | .price => some bar.close
  | .volume => some bar.volume

/-- The timeframe gate (`shouldProcess`): daily always; weekly/monthly only
at a week/month boundary with a non-null lookback change. -/
def shouldProcessTimeframe (tf : Timeframe) (isWeekBoundary isMonthBoundary : Bool)
    (weekly monthly : Option ℚ) : Bool :=
  match tf with
  | .daily => true
  | .weekly => isWeekBoundary && weekly.isSome
  | .monthly => isMonthBoundary && monthly.isSome

/-- Evaluate one action's condition in the appropriate context: the
price-history window for consecutive/pattern conditions, the metric value
for simple conditions (no evaluation when the value is unavailable).
The minimum-history gating for plain `technical` conditions is not modelled
because the embedded condition language reaches the technical branches only
through the pattern table, which the engine does not gate. -/
def evalActionCondition (action : StrategyAction) (history : List Bar) (bar : Bar)
    (dailyPC : ℚ) (weekly monthly : Option ℚ) : Bool :=
  match action.condition with
  | .simple metric _ _ =>
      match simpleMetricValue metric action.timeframe dailyPC weekly monthly bar with
      | some v => checkCondition action.condition [] v
      | none => false
  | _ => checkCondition action.condition history 0

/-- Fold the strategy's actions, in declaration order, over the shared
portfolio state for one symbol and date. -/
def processActions (strategy : Strategy) (sym : Sym) (date : Nat) (bar : Bar) (tpv : ℚ)
    (history : List Bar) (dailyPC : ℚ) (weekly monthly : Option ℚ)
    (isWeekBoundary isMonthBoundary : Bool)
    (p : Portfolio) (dayPositions : List (Sym × DayPos)) :
    Portfolio × List (Sym × DayPos) :=
  strategy.actions.foldl
    (fun st action =>
      if shouldProcessTimeframe action.timeframe isWeekBoundary isMonthBoundary weekly monthly then
        if evalActionCondition action history bar dailyPC weekly monthly then
          executeAction action sym date bar tpv st.1 st.2
        else st
      else st)
    (p, dayPositions)

/-- Per-symbol signal processing for one date: update the rolling history
buffer (capped at 30 bars), compute the percent changes and boundary flags,
and run the strategy's actions.  A symbol without a bar on this date, or
without a bar on the previous trading date, only updates its history. -/
def processSymbolDate (strategy : Strategy) (sd : StockData) (tradingDates : List Nat)
    (dateIndex : Nat) (date : Nat) (tpv : ℚ) (st : SimState) (sym : Sym) : SimState :=
  let bars := (alookup sd sym).getD []
  match findBar bars date with
  | none => st
  | some currentBar =>
      let previousBar? :=
        if dateIndex > 0 then findBar bars (tradingDates.getD (dateIndex - 1) 0) else none
      match previousBar? with
      | none =>
          -- no previous bar: push to history (no trim in this branch) and return
          let hist := ((alookup st.historyData sym).getD []) ++ [currentBar]
          { st with historyData := aset st.historyData sym hist }
      | some previousBar =>
          let hist0 := ((alookup st.historyData sym).getD []) ++ [currentBar]
          let hist := if hist0.length > 30 then hist0.drop 1 else hist0
          let dailyPC := calculatePercentChange currentBar.close previousBar.close
          let prevDate := tradingDates.getD (dateIndex - 1) 0
          let isWeekBoundary : Bool :=
            dateIndex = 0 || dateYear date ≠ dateYear prevDate || dateWeek date ≠ dateWeek prevDate
          let weekly : Option ℚ :=
            if dateIndex ≥ 5 then
              (findBar bars (tradingDates.getD (dateIndex - 5) 0)).map
                (fun b => calculatePercentChange currentBar.close b.close)
            else none
          let isMonthBoundary : Bool :=
            dateIndex = 0 || dateYear date ≠ dateYear prevDate || dateMonth date ≠ dateMonth prevDate
          let monthly : Option ℚ :=
            if dateIndex ≥ 20 then
              (findBar bars (tradingDates.getD (dateIndex - 20) 0)).map
                (fun b => calculatePercentChange currentBar.close b.close)
            else none
          let res := processActions strategy sym date currentBar tpv hist dailyPC weekly monthly
            isWeekBoundary isMonthBoundary st.portfolio st.dayPositions
          { portfolio := res.1, dayPositions := res.2,
            historyData := aset st.historyData sym hist }

/-- One step of the end-of-day closeout: a day-trading entry made on this
date whose position is still strictly positive is force-sold in full at this
date's close, its cost basis zeroed, a synthetic EOD-exit transaction
recorded, and the entry removed from tracking; otherwise nothing happens. -/
def eodStep (sd : StockData) (date : Nat) (acc : SimState) (entry : Sym × DayPos) : SimState :=
  let sym := entry.1
  let pos := entry.2
  if pos.entryDate = date ∧ (alookup acc.portfolio.positions sym).getD 0 > 0 then
    match findBar ((alookup sd sym).getD []) date with
    | none => acc
    | some currentBar =>
        let sellQuantity := (alookup acc.portfolio.positions sym).getD 0
        let sellAmount := sellQuantity * currentBar.close
        let entryValue := pos.quantity * pos.entryPrice
        let exitValue := sellQuantity * currentBar.close
        let profitLoss := exitValue - entryValue
        let p := acc.portfolio
        let tx : Transaction :=
          { date := date, symbol := sym, type := TxType.sell,
            price := currentBar.close, quantity := sellQuantity, amount := sellAmount,
            amountType := some AmountTag.percentage, amountValue := some 100,
            positionAfter := 0, costBasisAfter := 0,
            isDayTrading := true, isEodExit := true,
            entryPrice := some pos.entryPrice, exitPrice := some currentBar.close,
            profitLoss := some profitLoss }
        { portfolio :=
            { cash := p.cash + sellAmount,
              positions := aset p.positions sym 0,
              positionCost := aset p.positionCost sym 0,
              transactions := p.transactions ++ [tx],
              valueHistory := p.valueHistory },
          dayPositions := aremove acc.dayPositions sym,
          historyData := acc.historyData }
  else acc

/-- End-of-day closeout over all tracked day-trading entries.  The iteration
is over a snapshot of the tracked entries (JS `Object.keys`); since only the
processed key itself is ever deleted, the snapshot value equals the live
value. -/
def eodClose (sd : StockData) (date : Nat) (st : SimState) : SimState :=
  st.dayPositions.foldl (eodStep sd date) st

/-- Process one trading date: mark to market (with the drift-correction
branch), append the date's `ValuePoint`, run per-symbol signal processing in
stock-data key order, then the end-of-day day-trade closeout. -/
def processDate (strategy : Strategy) (sd : StockData) (tradingDates : List Nat)
    (st : SimState) (dateIndex : Nat) (date : Nat) : SimState :=
  let mtm := markToMarket sd st.portfolio date
  let totalPositionValue := mtm.2
  let expectedTotal := st.portfolio.cash + totalPositionValue
  let totalPortfolioValue :=
    if jsAbs (expectedTotal - mtm.1) > 1/100 then expectedTotal else mtm.1
  let vp : ValuePoint :=
    { date := date, value := totalPortfolioValue,
      cash := st.portfolio.cash, positions := totalPositionValue }
  let st1 : SimState :=
    { st with portfolio := { st.portfolio with
        valueHistory := st.portfolio.valueHistory ++ [vp] } }
  let st2 := sd.foldl
    (fun acc entry =>
      processSymbolDate strategy sd tradingDates dateIndex date totalPortfolioValue acc entry.1)
    st1
  eodClose sd date st2

/-! ## Trading-date collection, metrics and the backtest entry point -/

/-- All bar dates across all symbols, in encounter order. -/
def allBarDates (sd : StockData) : List Nat :=
  sd.foldr (fun entry acc => entry.2.map Bar.date ++ acc) []

/-- Insert into a chronologically sorted list. -/
def insertSorted (d : Nat) : List Nat → List Nat
  | [] => [d]
  | x :: xs => if d ≤ x then d :: x :: xs else x :: insertSorted d xs

/-- Chronological sort. -/
def sortNats (l : List Nat) : List Nat := l.foldr insertSorted []

/-- The sorted distinct trading dates (`Array.from(new Set(...)).sort()`). -/
def tradingDatesOf (sd : StockData) : List Nat := sortNats (allBarDates sd).dedup

/-- The max-drawdown fold: running peak seeded with the initial cash,
drawdown `(peak - value)/peak × 100` at each point, maximum reported. -/
def maxDrawdownCode (vh : List ValuePoint) : ℚ :=
  (vh.foldl
    (fun st point =>
      let peak := if point.value > st.1 then point.value else st.1
      let drawdown := (peak - point.value) / peak * 100
      (peak, if drawdown > st.2 then drawdown else st.2))
    ((initialCash, 0) : ℚ × ℚ)).2

/-- The price of a symbol's most recent transaction
(`transactions.filter(...).slice(-1)[0]?.price || 0`). -/
def lastTransactionPrice (txs : List Transaction) (sym : Sym) : ℚ :=
  match (txs.filter (fun tx => tx.symbol = sym)).getLast? with
  | some tx => tx.price
  | none => 0

/-- The bottom-up reconciliation value: cash plus, over every position
entry, quantity times the symbol's most recent transaction price. -/
def recomputedFinalValue (cash : ℚ) (positions : List (Sym × ℚ))
    (txs : List Transaction) : ℚ :=
  cash + positions.foldl
    (fun total entry => total + entry.2 * lastTransactionPrice txs entry.1) 0

/-- The final `positionAvgCost` pass: `|cost| / |quantity|` for every
nonzero position. -/
def positionAvgCostOf (positions positionCost : List (Sym × ℚ)) : List (Sym × ℚ) :=
  positions.foldl
    (fun acc entry =>
      if entry.2 ≠ 0 then
        let absQuantity := jsAbs entry.2
        let absPositionCost := jsAbs ((alookup positionCost entry.1).getD 0)
        aset acc entry.1 (if absQuantity > 0 then absPositionCost / absQuantity else 0)
      else acc)
    []

/-- Run metrics (the Sharpe ratio is computed separately over the value
history by `sharpeOfValues`, see below, because its IEEE semantics need a
dedicated number model). -/
structure Metrics where
  startDate : Nat
  endDate : Nat
  totalReturn : ℚ
  maxDrawdown : ℚ
  valuesConsistent : Bool
deriving Repr, DecidableEq

/-- The result object of a completed run. -/
structure BacktestResult where
  cash : ℚ
  positions : List (Sym × ℚ)
  positionCost : List (Sym × ℚ)
  positionAvgCost : List (Sym × ℚ)
  transactions : List Transaction
  valueHistory : List ValuePoint
  metrics : Metrics
deriving Repr, DecidableEq

/-- A backtest either returns the explicit error object (no trading dates)
or a full result. -/
inductive BacktestOutput
  | error (msg : String)
  | ok (r : BacktestResult)
deriving Repr, DecidableEq

/-- The initial simulation state: `$10,000` cash, nothing else. -/
def initState : SimState :=
  { portfolio :=
      { cash := initialCash, positions := [], positionCost := [],
        transactions := [], valueHistory := [] },
    dayPositions := [], historyData := [] }

/-- The final simulation state: the per-date processing folded over the
trading dates (with their indices). -/
def finalStateOf (strategy : Strategy) (sd : StockData) (td : List Nat) : SimState :=
  td.enum.foldl (fun st p => processDate strategy sd td st p.1 p.2) initState

/-- The result object assembled after the date loop: the portfolio fields,
the average-cost pass, and the metrics with the reconciliation flag. -/
def mkResult (strategy : Strategy) (sd : StockData) (td : List Nat) : BacktestResult :=
  let p := (finalStateOf strategy sd td).portfolio
  let portfolioFinalValue := (p.valueHistory.getLastD ⟨0, 0, 0, 0⟩).value
  let calculatedFinalValue := recomputedFinalValue p.cash p.positions p.transactions
  { cash := p.cash, positions := p.positions, positionCost := p.positionCost,
    positionAvgCost := positionAvgCostOf p.positions p.positionCost,
    transactions := p.transactions, valueHistory := p.valueHistory,
    metrics :=
      { startDate := td.headD 0,
        endDate := td.getLastD 0,
        totalReturn := (portfolioFinalValue - initialCash) / initialCash * 100,
        maxDrawdown := maxDrawdownCode p.valueHistory,
        valuesConsistent := decide (jsAbs (portfolioFinalValue - calculatedFinalValue) ≤ 1/100) } }

/-- `runBacktest(strategy, stockData)`: collect the sorted distinct trading
dates (error result when there are none), fold the per-date processing over
them, then compute the metrics and the reconciliation flag. -/
def runBacktest (strategy : Strategy) (sd : StockData) : BacktestOutput :=
  match tradingDatesOf sd with
  | [] => .error "No trading data available"
  | _ :: _ => .ok (mkResult strategy sd (tradingDatesOf sd))

/-! ## IEEE-style number model for the Sharpe-ratio path

JS float arithmetic can produce `NaN`/`Infinity` in the Sharpe computation
(empty returns list, zero portfolio values).  `JsNum` models a JS number as
an exact rational, a signed infinity, or `NaN` (single zero, no `-0`). -/

/-- A JS number for the metrics path: finite (exact rational), signed
infinity, or `NaN`. -/
inductive JsNum
  | fin (q : ℚ)
  | inf (pos : Bool)
  | nan
deriving Repr, DecidableEq

/-- IEEE negation. -/
def jsNeg : JsNum → JsNum
  | .fin a => .fin (-a)
  | .inf s => .inf (!s)
  | .nan => .nan

/-- IEEE addition. -/
def jsAdd : JsNum → JsNum → JsNum
  | .nan, _ => .nan
  | _, .nan => .nan
  | .fin a, .fin b => .fin (a + b)
  | .fin _, .inf s => .inf s
  | .inf s, .fin _ => .inf s
  | .inf s, .inf t => if s = t then .inf s else .nan

/-- IEEE subtraction. -/
def jsSub (a b : JsNum) : JsNum := jsAdd a (jsNeg b)

/-- IEEE multiplication. -/
def jsMul : JsNum → JsNum → JsNum
  | .nan, _ => .nan
  | _, .nan => .nan
  | .fin a, .fin b => .fin (a * b)
  | .fin a, .inf s => if a = 0 then .nan else .inf (s = decide (0 < a))
  | .inf s, .fin a => if a = 0 then .nan else .inf (s = decide (0 < a))
  | .inf s, .inf t => .inf (s = t)

/-- IEEE division (single-zero model: a nonzero finite value divided by zero
is an infinity signed by the numerator). -/
def jsDiv : JsNum → JsNum → JsNum
  | .nan, _ => .nan
  | _, .nan => .nan
  | .fin a, .fin b =>
      if b = 0 then (if a = 0 then .nan else .inf (decide (0 < a))) else .fin (a / b)
  | .fin _, .inf _ => .fin 0
  | .inf s, .fin b => if b = 0 then .inf s else .inf (s = decide (0 < b))
  | .inf _, .inf _ => .nan

/-- `reduce((sum, val) => sum + val, 0)`. -/
def jsSum (l : List JsNum) : JsNum := l.foldl jsAdd (.fin 0)

/-- The simple daily returns of consecutive value-history points,
`(v[i] - v[i-1]) / v[i-1]`. -/
def dailyReturnsJs : List ℚ → List JsNum
  | a :: b :: rest => jsDiv (jsSub (.fin b) (.fin a)) (.fin a) :: dailyReturnsJs (b :: rest)
  | _ => []

/-- `avgReturn = Σ returns / returns.length` (an empty returns list gives
`0/0 = NaN`). -/
def avgReturnJs (values : List ℚ) : JsNum :=
  jsDiv (jsSum (dailyReturnsJs values)) (.fin (dailyReturnsJs values).length)

/-- The radicand of the standard deviation:
`Σ (val - avgReturn)^2 / returns.length`. -/
def variancePreJs (values : List ℚ) : JsNum :=
  let rets := dailyReturnsJs values
  let avg := avgReturnJs values
  jsDiv (jsSum (rets.map (fun r => jsMul (jsSub r avg) (jsSub r avg)))) (.fin rets.length)

/-- A JS number with a real (possibly irrational) finite part, needed once
`Math.sqrt` enters. -/
inductive JsNumR
  | fin (x : ℝ)
  | inf (pos : Bool)
  | nan

noncomputable instance : DecidableEq JsNumR := fun _ _ => Classical.propDecidable _

/-- The obvious embedding of `JsNum` into `JsNumR`. -/
noncomputable def JsNum.toR : JsNum → JsNumR
  | .fin q => .fin (q : ℝ)
  | .inf s => .inf s
  | .nan => .nan

/-- IEEE `Math.sqrt`: `NaN` for `NaN` or negative arguments. -/
noncomputable def jsSqrtR : JsNum → JsNumR
  | .fin q => if q < 0 then .nan else .fin (Real.sqrt q)
  | .inf s => if s then .inf true else .nan
  | .nan => .nan

/-- IEEE multiplication on `JsNumR`. -/
noncomputable def jsMulR : JsNumR → JsNumR → JsNumR
  | .nan, _ => .nan
  | _, .nan => .nan
  | .fin a, .fin b => .fin (a * b)
  | .fin a, .inf s => if a = 0 then .nan else .inf (s = decide (0 < a))
  | .inf s, .fin a => if a = 0 then .nan else .inf (s = decide (0 < a))
  | .inf s, .inf t => .inf (s = t)

/-- IEEE division on `JsNumR`. -/
noncomputable def jsDivR : JsNumR → JsNumR → JsNumR
  | .nan, _ => .nan
  | _, .nan => .nan
  | .fin a, .fin b =>
      if b = 0 then (if a = 0 then .nan else .inf (decide (0 < a))) else .fin (a / b)
  | .fin _, .inf _ => .fin 0
  | .inf s, .fin b => if b = 0 then .inf s else .inf (s = decide (0 < b))
  | .inf _, .inf _ => .nan

/-- `stdDeviation = Math.sqrt(Σ (val - avg)^2 / n)` over a value series. -/
noncomputable def stdDeviationOf (values : List ℚ) : JsNumR := jsSqrtR (variancePreJs values)

/-- `metrics.sharpeRatio`, as a function of the value-history series (the
only state it reads): `stdDeviation === 0 ? 0 : avgReturn / stdDeviation ×
Math.sqrt(252)`. -/
noncomputable def sharpeOfValues (values : List ℚ) : JsNumR :=
  if stdDeviationOf values = JsNumR.fin 0 then JsNumR.fin 0
  else jsMulR (jsDivR (avgReturnJs values).toR (stdDeviationOf values)) (.fin (Real.sqrt 252))

/-! ## Result accessors and spec-modelled reference definitions -/

/-- The value series of a completed run (`none` for the error result). -/
def outputValues : BacktestOutput → Option (List ℚ)
  | .error _ => none
  | .ok r => some (r.valueHistory.map ValuePoint.value)

/-- The `valuesConsistent` flag of a completed run. -/
def outputValuesConsistent : BacktestOutput → Option Bool
  | .error _ => none
  | .ok r => some r.metrics.valuesConsistent

/-- The `maxDrawdown` metric of a completed run. -/
def outputMaxDrawdown : BacktestOutput → Option ℚ
  | .error _ => none
  | .ok r => some r.metrics.maxDrawdown

/-- `final ValuePoint.value - (cash + Σ quantity × last transaction price)`
of a completed run. -/
def outputReconDiff : BacktestOutput → Option ℚ
  | .error _ => none
  | .ok r =>
      some ((r.valueHistory.getLastD ⟨0, 0, 0, 0⟩).value -
        recomputedFinalValue r.cash r.positions r.transactions)

/-- A symbol's final position quantity in a completed run. -/
def outputPositionOf (o : BacktestOutput) (sym : Sym) : Option ℚ :=
  match o with
  | .error _ => none
  | .ok r => some ((alookup r.positions sym).getD 0)

/-- The number of synthetic EOD-exit transactions in a completed run. -/
def countEodExits : BacktestOutput → Option Nat
  | .error _ => none
  | .ok r => some (r.transactions.filter (fun tx => tx.isEodExit)).length

/-- The Sharpe ratio of a completed run. -/
noncomputable def outputSharpe : BacktestOutput → Option JsNumR
  | .error _ => none
  | .ok r => some (sharpeOfValues (r.valueHistory.map ValuePoint.value))

/-- Spec-modelled drawdown list: the drawdown of every point, with the peak
tracked as the running maximum of the series itself. -/
def drawdownListSpec : ℚ → List ℚ → List ℚ
  | _, [] => []
  | peak, v :: rest =>
      let peak' := max peak v
      ((peak' - v) / peak' * 100) :: drawdownListSpec peak' rest

/-- Modelled from the spec: the max drawdown as "the maximum over all
value-history points of `(peak - value)/peak × 100`, where `peak` is the
running maximum of the value-history series up to and including that
point". -/
def maxDrawdownSpec : List ℚ → ℚ
  | [] => 0
  | v :: rest => (drawdownListSpec v (v :: rest)).foldl max 0

/-! ## Helper lemmas -/

theorem alookup_aset_self {α : Type} (m : List (Sym × α)) (k : Sym) (v : α) :
    alookup (aset m k v) k = some v := by
  induction m with
  | nil => simp [aset, alookup]
  | cons hd tl ih =>
      obtain ⟨k', v'⟩ := hd
      by_cases h : k' = k
      · subst h
        simp [aset, alookup]
      · simp [aset, alookup, h, ih]

theorem alookup_aset_other {α : Type} (m : List (Sym × α)) (k k' : Sym) (v : α)
    (h : k' ≠ k) : alookup (aset m k v) k' = alookup m k' := by
  have h' : k ≠ k' := Ne.symm h
  induction m with
  | nil => simp [aset, alookup, h']
  | cons hd tl ih =>
      obtain ⟨k₀, v₀⟩ := hd
      by_cases h₀ : k₀ = k
      · subst h₀
        simp [aset, alookup, h']
      · simp [aset, alookup, h₀, ih]

theorem alookup_aremove_other {α : Type} (m : List (Sym × α)) (k k' : Sym)
    (h : k' ≠ k) : alookup (aremove m k) k' = alookup m k' := by
  have h' : k ≠ k' := Ne.symm h
  induction m with
  | nil => simp [aremove]
  | cons hd tl ih =>
      obtain ⟨k₀, v₀⟩ := hd
      by_cases h₀ : k₀ = k
      · subst h₀
        simp [aremove, alookup, h']
      · simp [aremove, alookup, h₀, ih]

theorem mem_of_alookup {α : Type} {m : List (Sym × α)} {k : Sym} {v : α}
    (h : alookup m k = some v) : (k, v) ∈ m := by
  induction m with
  | nil => simp [alookup] at h
  | cons hd tl ih =>
      obtain ⟨k₀, v₀⟩ := hd
      by_cases h₀ : k₀ = k
      · subst h₀
        simp [alookup] at h
        simp [h]
      · simp [alookup, h₀] at h
        exact List.mem_cons_of_mem _ (ih h)

/-- The amount calculator always produces a strictly positive dollar amount
and a non-negative share count. -/
theorem calculateAmount_pos (rule? : Option AmountRule) (pv price : ℚ) :
    0 < (calculateAmount rule? pv price).dollars ∧ 0 ≤ (calculateAmount rule? pv price).shares := by
  have hfloor : 0 < (amountFloor price).dollars ∧ 0 ≤ (amountFloor price).shares := by
    constructor
    · norm_num [amountFloor]
    · simp only [amountFloor]
      split
      · positivity
      · norm_num
  match rule? with
  | none => exact hfloor
  | some rule =>
      simp only [calculateAmount]
      split
      · exact hfloor
      · rename_i hkeep
        push_neg at hkeep
        exact ⟨hkeep.1, le_of_lt hkeep.2⟩

/-- The two accumulators of the mark-to-market fold differ by the seed
difference; in particular `totalPortfolioValue = cash + totalPositionValue`,
so the engine's drift-correction branch never fires. -/
theorem markToMarket_fst (sd : StockData) (p : Portfolio) (date : Nat) :
    (markToMarket sd p date).1 = p.cash + (markToMarket sd p date).2 := by
  suffices h : ∀ (l : List (Sym × ℚ)) (a b : ℚ),
      (l.foldl (fun acc entry =>
        match findBar ((alookup sd entry.1).getD []) date with
        | some bar => (acc.1 + bar.close * entry.2, acc.2 + bar.close * entry.2)
        | none => acc) (a, b)).1 =
      a - b + (l.foldl (fun acc entry =>
        match findBar ((alookup sd entry.1).getD []) date with
        | some bar => (acc.1 + bar.close * entry.2, acc.2 + bar.close * entry.2)
        | none => acc) (a, b)).2 by
    have := h p.positions p.cash 0
    simpa [markToMarket] using this
  intro l
  induction l with
  | nil => intro a b; simp
  | cons hd tl ih =>
      intro a b
      simp only [List.foldl_cons]
      cases hfind : findBar ((alookup sd hd.1).getD []) date with
      | none => simpa using ih a b
      | some bar =>
          have := ih (a + bar.close * hd.2) (b + bar.close * hd.2)
          simp only [hfind]
          rw [this]
          ring_nf

/-- Generic fold invariant preservation. -/
theorem foldl_preserve {σ α : Type} (P : σ → Prop) (f : σ → α → σ) :
    ∀ (l : List α) (s : σ), P s → (∀ s a, P s → P (f s a)) → P (l.foldl f s) := by
  intro l
  induction l with
  | nil => intro s hs _; exact hs
  | cons hd tl ih => intro s hs hstep; exact ih (f s hd) (hstep s hd hs) hstep

/-- All bars of a stock-data map have non-negative close and open prices. -/
def NonnegData (sd : StockData) : Prop :=
  ∀ e ∈ sd, ∀ b ∈ e.2, 0 ≤ b.close ∧ ∀ o ∈ b.openPrice, 0 ≤ o

theorem NonnegData.close_of_findBar {sd : StockData} (h : NonnegData sd) {sym : Sym}
    {date : Nat} {bar : Bar}
    (hb : findBar ((alookup sd sym).getD []) date = some bar) : 0 ≤ bar.close := by
  cases halook : alookup sd sym with
  | none => rw [halook] at hb; simp [findBar] at hb
  | some bars =>
      rw [halook] at hb
      have hmem : bar ∈ bars := List.mem_of_find?_eq_some hb
      exact (h (sym, bars) (mem_of_alookup halook) bar hmem).1

theorem executeBuy_cash_nonneg (sym : Sym) (date : Nat) (bar : Bar) (isDT : Bool)
    (ad : AmountData) (rule : AmountRule) (p : Portfolio) (dps : List (Sym × DayPos))
    (h : 0 ≤ p.cash) : 0 ≤ (executeBuy sym date bar isDT ad rule p dps).1.cash := by
  simp only [executeBuy]
  split
  · rename_i hge
    simpa using sub_nonneg.mpr hge
  · exact h

theorem executeSell_cash_nonneg (sym : Sym) (date : Nat) (bar : Bar)
    (ad : AmountData) (rule : AmountRule) (p : Portfolio) (dps : List (Sym × DayPos))
    (h : 0 ≤ p.cash) (hd : 0 < ad.dollars) (hs : 0 ≤ ad.shares) (hc : 0 ≤ bar.close) :
    0 ≤ (executeSell sym date bar ad rule p dps).1.cash := by
  simp only [executeSell, jsMin_eq_min]
  split_ifs with h₁ h₂ h₂
  all_goals simp only
  · -- shares branch, long position
    have : 0 ≤ min ad.shares ((alookup p.positions sym).getD 0) * bar.close :=
      mul_nonneg (le_min hs (le_of_lt h₂)) hc
    linarith
  · -- shares branch, no long position
    have hmax : (0 : ℚ) ≤ maxSafeInteger := by norm_num [maxSafeInteger]
    have : 0 ≤ min ad.shares maxSafeInteger * bar.close :=
      mul_nonneg (le_min hs hmax) hc
    linarith
  · -- dollar branch, long position capped
    have : 0 ≤ min ad.dollars ((alookup p.positions sym).getD 0 * bar.close) :=
      le_min (le_of_lt hd) (mul_nonneg (le_of_lt h₂) hc)
    linarith
  · -- dollar branch, uncapped short
    linarith

theorem executeShort_cash_nonneg (sym : Sym) (date : Nat) (bar : Bar)
    (ad : AmountData) (rule : AmountRule) (p : Portfolio)
    (h : 0 ≤ p.cash) (hd : 0 ≤ ad.dollars) :
    0 ≤ (executeShort sym date bar ad rule p).cash := by
  simp only [executeShort]
  linarith

theorem executeAction_cash_nonneg (action : StrategyAction) (sym : Sym) (date : Nat)
    (bar : Bar) (tpv : ℚ) (p : Portfolio) (dps : List (Sym × DayPos))
    (h : 0 ≤ p.cash) (hc : 0 ≤ bar.close) :
    0 ≤ (executeAction action sym date bar tpv p dps).1.cash := by
  simp only [executeAction]
  obtain ⟨hdol, hsh⟩ := calculateAmount_pos (some action.amount) tpv
    (if isDayTradingCondition action.condition = true then jsOr bar.openPrice bar.close
     else bar.close)
  cases action.type with
  | buy => exact executeBuy_cash_nonneg _ _ _ _ _ _ _ _ h
  | sell => exact executeSell_cash_nonneg _ _ _ _ _ _ _ h hdol hsh hc
  | short => exact executeShort_cash_nonneg _ _ _ _ _ _ h (le_of_lt hdol)

theorem processActions_cash_nonneg (strategy : Strategy) (sym : Sym) (date : Nat)
    (bar : Bar) (tpv : ℚ) (hist : List Bar) (dailyPC : ℚ) (weekly monthly : Option ℚ)
    (iwb imb : Bool) (p : Portfolio) (dps : List (Sym × DayPos))
    (h : 0 ≤ p.cash) (hc : 0 ≤ bar.close) :
    0 ≤ (processActions strategy sym date bar tpv hist dailyPC weekly monthly iwb imb p dps).1.cash := by
  simp only [processActions]
  refine foldl_preserve (fun st => 0 ≤ st.1.cash) _ _ (p, dps) h ?_
  intro st action hst
  split
  · split
    · exact executeAction_cash_nonneg _ _ _ _ _ _ _ hst hc
    · exact hst
  · exact hst

theorem processSymbolDate_cash_nonneg (strategy : Strategy) (sd : StockData)
    (td : List Nat) (i date : Nat) (tpv : ℚ) (st : SimState) (sym : Sym)
    (h : 0 ≤ st.portfolio.cash) (hnn : NonnegData sd) :
    0 ≤ (processSymbolDate strategy sd td i date tpv st sym).portfolio.cash := by
  simp only [processSymbolDate]
  cases hfind : findBar ((alookup sd sym).getD []) date with
  | none => exact h
  | some currentBar =>
      have hc : 0 ≤ currentBar.close := hnn.close_of_findBar hfind
      cases hprev : (if i > 0 then findBar ((alookup sd sym).getD []) (td.getD (i - 1) 0) else none) with
      | none => exact h
      | some previousBar =>
          exact processActions_cash_nonneg _ _ _ _ _ _ _ _ _ _ _ _ _ h hc

theorem eodClose_cash_nonneg (sd : StockData) (date : Nat) (st : SimState)
    (h : 0 ≤ st.portfolio.cash) (hnn : NonnegData sd) :
    0 ≤ (eodClose sd date st).portfolio.cash := by
  simp only [eodClose]
  refine foldl_preserve (fun acc => 0 ≤ acc.portfolio.cash) _ _ st h ?_
  intro acc entry hacc
  simp only [eodStep]
  split
  · rename_i hguard
    cases hfind : findBar ((alookup sd entry.1).getD []) date with
    | none => exact hacc
    | some currentBar =>
        have hc : 0 ≤ currentBar.close := hnn.close_of_findBar hfind
        have hq : 0 < (alookup acc.portfolio.positions entry.1).getD 0 := hguard.2
        simp only
        have : 0 ≤ (alookup acc.portfolio.positions entry.1).getD 0 * currentBar.close :=
          mul_nonneg (le_of_lt hq) hc
        linarith
  · exact hacc

theorem processDate_cash_nonneg (strategy : Strategy) (sd : StockData) (td : List Nat)
    (st : SimState) (i date : Nat)
    (h : 0 ≤ st.portfolio.cash) (hnn : NonnegData sd) :
    0 ≤ (processDate strategy sd td st i date).portfolio.cash := by
  simp only [processDate]
  refine eodClose_cash_nonneg _ _ _ ?_ hnn
  refine foldl_preserve (fun acc : SimState => 0 ≤ acc.portfolio.cash) _ _ _ h ?_
  intro acc entry hacc
  exact processSymbolDate_cash_nonneg _ _ _ _ _ _ _ _ hacc hnn

/-- End-to-end cash invariant: a completed run of the engine never returns a
negative cash balance when all prices are non-negative. -/
theorem runBacktest_cash_nonneg (strategy : Strategy) (sd : StockData)
    (r : BacktestResult) (hnn : NonnegData sd)
    (hr : runBacktest strategy sd = .ok r) : 0 ≤ r.cash := by
  unfold runBacktest at hr
  cases htd : tradingDatesOf sd with
  | nil => rw [htd] at hr; simp at hr
  | cons d ds =>
      rw [htd] at hr
      simp only [BacktestOutput.ok.injEq] at hr
      have hfold : 0 ≤ ((d :: ds).enum.foldl
          (fun st p => processDate strategy sd (d :: ds) st p.1 p.2) initState).portfolio.cash := by
        refine foldl_preserve (fun st : SimState => 0 ≤ st.portfolio.cash) _ _ _ ?_ ?_
        · norm_num [initState, initialCash]
        · intro s a hs
          exact processDate_cash_nonneg _ _ _ _ _ _ hs hnn
      rw [← hr]
      exact hfold

/-! ### Value-history evolution -/

theorem executeBuy_valueHistory (sym : Sym) (date : Nat) (bar : Bar) (isDT : Bool)
    (ad : AmountData) (rule : AmountRule) (p : Portfolio) (dps : List (Sym × DayPos)) :
    (executeBuy sym date bar isDT ad rule p dps).1.valueHistory = p.valueHistory := by
  simp only [executeBuy]
  split <;> rfl

theorem executeSell_valueHistory (sym : Sym) (date : Nat) (bar : Bar)
    (ad : AmountData) (rule : AmountRule) (p : Portfolio) (dps : List (Sym × DayPos)) :
    (executeSell sym date bar ad rule p dps).1.valueHistory = p.valueHistory := rfl

theorem executeShort_valueHistory (sym : Sym) (date : Nat) (bar : Bar)
    (ad : AmountData) (rule : AmountRule) (p : Portfolio) :
    (executeShort sym date bar ad rule p).valueHistory = p.valueHistory := rfl

theorem executeAction_valueHistory (action : StrategyAction) (sym : Sym) (date : Nat)
    (bar : Bar) (tpv : ℚ) (p : Portfolio) (dps : List (Sym × DayPos)) :
    (executeAction action sym date bar tpv p dps).1.valueHistory = p.valueHistory := by
  simp only [executeAction]
  cases action.type with
  | buy => exact executeBuy_valueHistory _ _ _ _ _ _ _ _
  | sell => exact executeSell_valueHistory _ _ _ _ _ _ _
  | short => exact executeShort_valueHistory _ _ _ _ _ _

theorem processActions_valueHistory (strategy : Strategy) (sym : Sym) (date : Nat)
    (bar : Bar) (tpv : ℚ) (hist : List Bar) (dailyPC : ℚ) (weekly monthly : Option ℚ)
    (iwb imb : Bool) (p : Portfolio) (dps : List (Sym × DayPos)) :
    (processActions strategy sym date bar tpv hist dailyPC weekly monthly iwb imb p dps).1.valueHistory =
      p.valueHistory := by
  simp only [processActions]
  refine foldl_preserve (fun st => st.1.valueHistory = p.valueHistory) _ _ (p, dps) rfl ?_
  intro st action hst
  split
  · split
    · rw [executeAction_valueHistory]; exact hst
    · exact hst
  · exact hst

theorem processSymbolDate_valueHistory (strategy : Strategy) (sd : StockData)
    (td : List Nat) (i date : Nat) (tpv : ℚ) (st : SimState) (sym : Sym) :
    (processSymbolDate strategy sd td i date tpv st sym).portfolio.valueHistory =
      st.portfolio.valueHistory := by
  simp only [processSymbolDate]
  cases hfind : findBar ((alookup sd sym).getD []) date with
  | none => rfl
  | some currentBar =>
      cases hprev : (if i > 0 then findBar ((alookup sd sym).getD []) (td.getD (i - 1) 0) else none) with
      | none => rfl
      | some previousBar => exact processActions_valueHistory _ _ _ _ _ _ _ _ _ _ _ _ _

theorem eodClose_valueHistory (sd : StockData) (date : Nat) (st : SimState) :
    (eodClose sd date st).portfolio.valueHistory = st.portfolio.valueHistory := by
  simp only [eodClose]
  refine foldl_preserve (fun acc => acc.portfolio.valueHistory = st.portfolio.valueHistory) _ _ st rfl ?_
  intro acc entry hacc
  simp only [eodStep]
  split
  · cases hfind : findBar ((alookup sd entry.1).getD []) date with
    | none => exact hacc
    | some currentBar => exact hacc
  · exact hacc

/-- Each trading date appends exactly one `ValuePoint`, whose value is the
mark-to-market total (the drift-correction branch provably never fires). -/
theorem processDate_valueHistory (strategy : Strategy) (sd : StockData) (td : List Nat)
    (st : SimState) (i date : Nat) :
    (processDate strategy sd td st i date).portfolio.valueHistory =
      st.portfolio.valueHistory ++
        [⟨date, (markToMarket sd st.portfolio date).1, st.portfolio.cash,
          (markToMarket sd st.portfolio date).2⟩] := by
  have hcorr : ¬ (jsAbs (st.portfolio.cash + (markToMarket sd st.portfolio date).2 -
      (markToMarket sd st.portfolio date).1) > 1/100) := by
    rw [markToMarket_fst]
    norm_num [jsAbs]
  simp only [processDate, hcorr, if_false, eodClose_valueHistory]
  rw [foldl_preserve
    (fun acc : SimState => acc.portfolio.valueHistory =
      st.portfolio.valueHistory ++
        [⟨date, (markToMarket sd st.portfolio date).1, st.portfolio.cash,
          (markToMarket sd st.portfolio date).2⟩]) _ sd _ rfl ?_]
  intro acc entry hacc
  rw [processSymbolDate_valueHistory]
  exact hacc

/-- The simulation fold only extends the value history. -/
theorem runFold_valueHistory (strategy : Strategy) (sd : StockData) (td : List Nat) :
    ∀ (l : List (Nat × Nat)) (st : SimState), ∃ suffix,
      (l.foldl (fun s p => processDate strategy sd td s p.1 p.2) st).portfolio.valueHistory =
        st.portfolio.valueHistory ++ suffix := by
  intro l
  induction l with
  | nil => intro st; exact ⟨[], by simp⟩
  | cons hd tl ih =>
      intro st
      obtain ⟨suf, hsuf⟩ := ih (processDate strategy sd td st hd.1 hd.2)
      refine ⟨⟨hd.2, (markToMarket sd st.portfolio hd.2).1, st.portfolio.cash,
        (markToMarket sd st.portfolio hd.2).2⟩ :: suf, ?_⟩
      rw [List.foldl_cons, hsuf, processDate_valueHistory]
      simp

/-- The first `ValuePoint` of any completed run has the initial `$10,000`
value (empty starting positions mark to market as pure cash). -/
theorem runFold_first_value (strategy : Strategy) (sd : StockData) (td : List Nat)
    (i d : Nat) (rest : List (Nat × Nat)) :
    ∃ tailPoints,
      (((i, d) :: rest).foldl (fun s p => processDate strategy sd td s p.1 p.2)
        initState).portfolio.valueHistory =
      ⟨d, initialCash, initialCash, 0⟩ :: tailPoints := by
  rw [List.foldl_cons]
  have h1 : (processDate strategy sd td initState i d).portfolio.valueHistory =
      [⟨d, initialCash, initialCash, 0⟩] := by
    rw [processDate_valueHistory]
    simp [initState, markToMarket]
  obtain ⟨suf, hsuf⟩ := runFold_valueHistory strategy sd td rest
    (processDate strategy sd td initState i d)
  exact ⟨suf, by rw [hsuf, h1]; rfl⟩

/-! ### Max-drawdown fold equivalence -/

theorem ite_gt_eq_max (a b : ℚ) : (if b > a then b else a) = max a b := by
  rcases le_or_lt b a with h | h
  · simp [not_lt.mpr h, max_eq_left h]
  · simp [h, max_eq_right (le_of_lt h)]

/-- The engine's seeded max-drawdown fold computes the fold of `max` over
the spec-modelled drawdown list. -/
theorem maxDrawdown_fold_eq (l : List ValuePoint) :
    ∀ (p m : ℚ),
      (l.foldl (fun st point =>
        let peak := if point.value > st.1 then point.value else st.1
        let drawdown := (peak - point.value) / peak * 100
        (peak, if drawdown > st.2 then drawdown else st.2)) (p, m)).2 =
      (drawdownListSpec p (l.map ValuePoint.value)).foldl max m := by
  induction l with
  | nil => intro p m; rfl
  | cons hd tl ih =>
      intro p m
      rw [List.foldl_cons]
      simp only [ite_gt_eq_max] at ih ⊢
      rw [ih]
      simp only [drawdownListSpec, List.map_cons, List.foldl_cons]

/-- On a value history whose first value is the initial cash, the engine's
max drawdown equals the spec-modelled running-peak version. -/
theorem maxDrawdownCode_eq_spec (vp : ValuePoint) (rest : List ValuePoint)
    (h : vp.value = initialCash) :
    maxDrawdownCode (vp :: rest) = maxDrawdownSpec ((vp :: rest).map ValuePoint.value) := by
  unfold maxDrawdownCode
  rw [maxDrawdown_fold_eq]
  simp only [List.map_cons, h, maxDrawdownSpec]

/-! ### Day-trading entry and end-of-day closeout behaviour -/

theorem executeAction_dayTrade_eq (action : StrategyAction) (sym : Sym) (date : Nat)
    (bar : Bar) (tpv : ℚ) (p : Portfolio) (dps : List (Sym × DayPos))
    (hbuy : action.type = .buy) (hdt : isDayTradingCondition action.condition = true) :
    executeAction action sym date bar tpv p dps =
      executeBuy sym date bar true
        (calculateAmount (some action.amount) tpv (jsOr bar.openPrice bar.close))
        action.amount p dps := by
  simp only [executeAction, hdt, hbuy, if_true]

theorem executeBuy_dayTrading (sym : Sym) (date : Nat) (bar : Bar) (ad : AmountData)
    (rule : AmountRule) (p : Portfolio) (dps : List (Sym × DayPos))
    (hcash : ad.dollars ≤ p.cash) :
    (∃ tx : Transaction,
      (executeBuy sym date bar true ad rule p dps).1.transactions = p.transactions ++ [tx] ∧
      tx.price = jsOr bar.openPrice bar.close ∧
      tx.quantity = ad.shares ∧
      tx.amount = ad.shares * jsOr bar.openPrice bar.close ∧
      tx.isDayTrading = true ∧
      tx.type = (if (alookup p.positions sym).getD 0 < 0 then TxType.cover_short else TxType.buy)) ∧
    (executeBuy sym date bar true ad rule p dps).1.cash = p.cash - ad.dollars ∧
    alookup (executeBuy sym date bar true ad rule p dps).2 sym =
      some ⟨date, jsOr bar.openPrice bar.close, ad.shares⟩ := by
  have hge : p.cash ≥ ad.dollars := hcash
  simp only [executeBuy, if_pos hge, if_true]
  exact ⟨⟨_, rfl, rfl, rfl, rfl, rfl, rfl⟩, trivial, alookup_aset_self _ _ _⟩

theorem eodStep_positions_other (sd : StockData) (date : Nat) (acc : SimState)
    (entry : Sym × DayPos) (sym : Sym) (h : entry.1 ≠ sym) :
    alookup (eodStep sd date acc entry).portfolio.positions sym =
      alookup acc.portfolio.positions sym ∧
    alookup (eodStep sd date acc entry).portfolio.positionCost sym =
      alookup acc.portfolio.positionCost sym := by
  simp only [eodStep]
  split
  · cases hfind : findBar ((alookup sd entry.1).getD []) date with
    | none => exact ⟨rfl, rfl⟩
    | some currentBar =>
        exact ⟨alookup_aset_other _ _ _ _ (Ne.symm h), alookup_aset_other _ _ _ _ (Ne.symm h)⟩
  · exact ⟨rfl, rfl⟩

theorem eodStep_transactions_suffix (sd : StockData) (date : Nat) (acc : SimState)
    (entry : Sym × DayPos) :
    ∃ suffix, (eodStep sd date acc entry).portfolio.transactions =
      acc.portfolio.transactions ++ suffix := by
  simp only [eodStep]
  split
  · cases hfind : findBar ((alookup sd entry.1).getD []) date with
    | none => exact ⟨[], by simp⟩
    | some currentBar => exact ⟨_, rfl⟩
  · exact ⟨[], by simp⟩

theorem eodFold_positions_other (sd : StockData) (date : Nat) (l : List (Sym × DayPos))
    (sym : Sym) (h : ∀ e ∈ l, e.1 ≠ sym) :
    ∀ st : SimState,
      alookup (l.foldl (eodStep sd date) st).portfolio.positions sym =
        alookup st.portfolio.positions sym ∧
      alookup (l.foldl (eodStep sd date) st).portfolio.positionCost sym =
        alookup st.portfolio.positionCost sym := by
  induction l with
  | nil => intro st; exact ⟨rfl, rfl⟩
  | cons hd tl ih =>
      intro st
      rw [List.foldl_cons]
      have hstep := eodStep_positions_other sd date st hd sym (h hd (List.mem_cons_self _ _))
      have htl := ih (fun e he => h e (List.mem_cons_of_mem _ he)) (eodStep sd date st hd)
      exact ⟨htl.1.trans hstep.1, htl.2.trans hstep.2⟩

theorem eodFold_transactions_suffix (sd : StockData) (date : Nat)
    (l : List (Sym × DayPos)) :
    ∀ st : SimState, ∃ suffix,
      (l.foldl (eodStep sd date) st).portfolio.transactions =
        st.portfolio.transactions ++ suffix := by
  induction l with
  | nil => intro st; exact ⟨[], by simp⟩
  | cons hd tl ih =>
      intro st
      rw [List.foldl_cons]
      obtain ⟨s1, hs1⟩ := eodStep_transactions_suffix sd date st hd
      obtain ⟨s2, hs2⟩ := ih (eodStep sd date st hd)
      exact ⟨s1 ++ s2, by rw [hs2, hs1, List.append_assoc]⟩

/-- The synthetic transaction recorded by the EOD exit of a tracked entry
with pre-exit quantity `q`. -/
def eodExitTx (sym : Sym) (date : Nat) (pos : DayPos) (bar : Bar) (q : ℚ) : Transaction :=
  { date := date, symbol := sym, type := TxType.sell, price := bar.close,
    quantity := q, amount := q * bar.close,
    amountType := some AmountTag.percentage, amountValue := some 100,
    positionAfter := 0, costBasisAfter := 0, isDayTrading := true, isEodExit := true,
    entryPrice := some pos.entryPrice, exitPrice := some bar.close,
    profitLoss := some (q * bar.close - pos.quantity * pos.entryPrice) }

/-- Any tracked entry made on this date whose position is still strictly
positive is closed by the EOD fold: the position and its cost basis end at
exactly `0` and the synthetic exit transaction is recorded. -/
theorem eodFold_closes_entry (sd : StockData) (date : Nat) (l : List (Sym × DayPos)) :
    ∀ (st : SimState) (sym : Sym) (pos : DayPos) (bar : Bar) (q : ℚ),
      (sym, pos) ∈ l → (l.map Prod.fst).Nodup →
      pos.entryDate = date →
      alookup st.portfolio.positions sym = some q → 0 < q →
      findBar ((alookup sd sym).getD []) date = some bar →
      alookup (l.foldl (eodStep sd date) st).portfolio.positions sym = some 0 ∧
      alookup (l.foldl (eodStep sd date) st).portfolio.positionCost sym = some 0 ∧
      eodExitTx sym date pos bar q ∈ (l.foldl (eodStep sd date) st).portfolio.transactions := by
  induction l with
  | nil => intro st sym pos bar q hmem; simp at hmem
  | cons hd tl ih =>
      intro st sym pos bar q hmem hnodup hdate hq hqpos hbar
      rw [List.foldl_cons]
      rcases List.mem_cons.mp hmem with heq | hmem'
      · -- the head entry is the tracked one: the step closes it
        have hhd : hd = (sym, pos) := heq.symm
        subst hhd
        have hnotin : ∀ e ∈ tl, e.1 ≠ sym := by
          intro e he hcontra
          have : sym ∈ tl.map Prod.fst := hcontra ▸ List.mem_map_of_mem Prod.fst he
          exact (List.nodup_cons.mp hnodup).1 this
        have hstep : eodStep sd date st (sym, pos) =
            { portfolio :=
                { cash := st.portfolio.cash + q * bar.close,
                  positions := aset st.portfolio.positions sym 0,
                  positionCost := aset st.portfolio.positionCost sym 0,
                  transactions := st.portfolio.transactions ++ [eodExitTx sym date pos bar q],
                  valueHistory := st.portfolio.valueHistory },
              dayPositions := aremove st.dayPositions sym,
              historyData := st.historyData } := by
          simp only [eodStep, hq, Option.getD_some, eodExitTx]
          rw [if_pos (show pos.entryDate = date ∧ q > 0 from ⟨hdate, hqpos⟩), hbar]
        rw [hstep]
        obtain ⟨hpos, hcost⟩ := eodFold_positions_other sd date tl sym hnotin _
        obtain ⟨suf, hsuf⟩ := eodFold_transactions_suffix sd date tl _
        refine ⟨?_, ?_, ?_⟩
        · rw [hpos]; exact alookup_aset_self _ _ _
        · rw [hcost]; exact alookup_aset_self _ _ _
        · rw [hsuf]
          simp
      · -- the head entry is a different symbol: it cannot disturb `sym`
        have hne : hd.1 ≠ sym := by
          intro hcontra
          have : hd.1 ∈ tl.map Prod.fst := by
            rw [hcontra]
            exact List.mem_map_of_mem Prod.fst hmem'
          exact (List.nodup_cons.mp hnodup).1 this
        have hstep := eodStep_positions_other sd date st hd sym hne
        exact ih (eodStep sd date st hd) sym pos bar q hmem'
          (List.nodup_cons.mp hnodup).2 hdate (hstep.1.trans hq) hqpos hbar

/-! ### Buy-gate, sell-cap and miscellaneous helper lemmas -/

/-- The sizing price and amount a triggered action resolves through the
amount calculator, as computed inside the action executor. -/
def buyAmountOf (action : StrategyAction) (bar : Bar) (tpv : ℚ) : AmountData :=
  calculateAmount (some action.amount) tpv
    (if isDayTradingCondition action.condition then jsOr bar.openPrice bar.close else bar.close)

theorem executeAction_buy_eq (action : StrategyAction) (sym : Sym) (date : Nat)
    (bar : Bar) (tpv : ℚ) (p : Portfolio) (dps : List (Sym × DayPos))
    (hbuy : action.type = .buy) :
    executeAction action sym date bar tpv p dps =
      executeBuy sym date bar (isDayTradingCondition action.condition)
        (buyAmountOf action bar tpv) action.amount p dps := by
  simp only [executeAction, buyAmountOf, hbuy]

theorem executeBuy_insufficient (sym : Sym) (date : Nat) (bar : Bar) (isDT : Bool)
    (ad : AmountData) (rule : AmountRule) (p : Portfolio) (dps : List (Sym × DayPos))
    (h : p.cash < ad.dollars) :
    executeBuy sym date bar isDT ad rule p dps = (p, dps) := by
  simp only [executeBuy, if_neg (not_le.mpr h)]

theorem executeBuy_executed (sym : Sym) (date : Nat) (bar : Bar) (isDT : Bool)
    (ad : AmountData) (rule : AmountRule) (p : Portfolio) (dps : List (Sym × DayPos))
    (h : ad.dollars ≤ p.cash) :
    (executeBuy sym date bar isDT ad rule p dps).1.cash = p.cash - ad.dollars ∧
    0 ≤ (executeBuy sym date bar isDT ad rule p dps).1.cash ∧
    ∃ tx : Transaction,
      (executeBuy sym date bar isDT ad rule p dps).1.transactions = p.transactions ++ [tx] ∧
      tx.type = (if (alookup p.positions sym).getD 0 < 0 then TxType.cover_short else TxType.buy) ∧
      tx.quantity = ad.shares ∧
      tx.amountType = rule.tag := by
  have hge : p.cash ≥ ad.dollars := h
  simp only [executeBuy, if_pos hge]
  refine ⟨by trivial, ?_, _, rfl, rfl, rfl, rfl⟩
  simpa using sub_nonneg.mpr h

theorem eodStep_cash_nonneg (sd : StockData) (date : Nat) (acc : SimState)
    (entry : Sym × DayPos) (h : 0 ≤ acc.portfolio.cash) (hnn : NonnegData sd) :
    0 ≤ (eodStep sd date acc entry).portfolio.cash := by
  simp only [eodStep]
  split
  · rename_i hguard
    cases hfind : findBar ((alookup sd entry.1).getD []) date with
    | none => exact h
    | some currentBar =>
        have hc : 0 ≤ currentBar.close := hnn.close_of_findBar hfind
        have hq : 0 < (alookup acc.portfolio.positions entry.1).getD 0 := hguard.2
        simp only
        have : 0 ≤ (alookup acc.portfolio.positions entry.1).getD 0 * currentBar.close :=
          mul_nonneg (le_of_lt hq) hc
        linarith
  · exact h

/-- Modelled from the spec: the per-direction relation required between
adjacent closes ("strictly increase", "strictly decrease", "exactly
equal"). -/
def directionRel : Direction → ℚ → ℚ → Prop
  | .up => (· < ·)
  | .down => fun a b => b < a
  | .unchanged => (· = ·)

theorem consecutivePairOK_iff (dir : Direction) (a b : ℚ) :
    consecutivePairOK dir a b = true ↔ directionRel dir a b := by
  cases dir with
  | up => simp [consecutivePairOK, directionRel, not_le]
  | down => simp [consecutivePairOK, directionRel, not_le]
  | unchanged => simp [consecutivePairOK, directionRel, eq_comm]

theorem consecutiveScan_iff (dir : Direction) (l : List Bar) :
    consecutiveScan dir l = true ↔ List.Chain' (directionRel dir) (l.map Bar.close) := by
  induction l with
  | nil => simp [consecutiveScan]
  | cons a rest ih =>
      cases rest with
      | nil => simp [consecutiveScan]
      | cons b rest' =>
          simp [consecutiveScan, List.chain'_cons, consecutivePairOK_iff, ih]

theorem insertSorted_ne_nil (d : Nat) (l : List Nat) : insertSorted d l ≠ [] := by
  cases l with
  | nil => simp [insertSorted]
  | cons x xs =>
      simp only [insertSorted]
      split <;> simp

theorem sortNats_eq_nil (l : List Nat) : sortNats l = [] ↔ l = [] := by
  cases l with
  | nil => simp [sortNats]
  | cons x xs =>
      simp only [sortNats, List.foldr_cons]
      constructor
      · intro h; exact absurd h (insertSorted_ne_nil _ _)
      · intro h; cases h

theorem tradingDatesOf_eq_nil (sd : StockData) :
    tradingDatesOf sd = [] ↔ allBarDates sd = [] := by
  rw [tradingDatesOf, sortNats_eq_nil, List.dedup_eq_nil]

/-! ## Concrete inputs used by counterexamples and witnesses -/

/-- A strategy buying `$100` whenever the close equals `100`. -/
def priceEqualBuyStrategy : Strategy :=
  ⟨[⟨.buy, .simple .price .equal 100, .daily, ⟨some .fixed_amount, some 100⟩⟩]⟩

/-- Three bars: the buy triggers on the second date only; the close then
moves to `150` with no further transaction, so the final mark-to-market
value and the last-transaction-price recomputation disagree by `50`. -/
def staleLastPriceData : StockData :=
  [("A", [⟨1, none, 100, 0⟩, ⟨2, none, 100, 0⟩, ⟨3, none, 150, 0⟩])]

/-- A day-trading gap-down entry followed by an explicit short on the same
date, flipping the position negative before the EOD closeout runs. -/
def dayTradeFlipStrategy : Strategy :=
  ⟨[⟨.buy, .pattern .day_trade_gap_down none, .daily, ⟨some .fixed_amount, some 200⟩⟩,
    ⟨.short, .simple .price .greater_than 0, .daily, ⟨some .shares, some 10⟩⟩]⟩

/-- Two bars with a `−3.5%` opening gap on the second date. -/
def gapDownData : StockData :=
  [("A", [⟨1, some 100, 100, 0⟩, ⟨2, some (193/2), 97, 0⟩])]

/-- The empty strategy (no actions). -/
def emptyStrategy : Strategy := ⟨[]⟩

/-- A single trading date: the value history has exactly one point. -/
def oneBarData : StockData := [("A", [⟨1, none, 100, 0⟩])]

/-- Two trading dates with a flat value history. -/
def flatTwoBarData : StockData := [("A", [⟨1, none, 100, 0⟩, ⟨2, none, 100, 0⟩])]

/-- Exactly two bars of history. -/
def upBars2 : List Bar := [⟨1, none, 10, 0⟩, ⟨2, none, 11, 0⟩]

/-- Three strictly increasing closes `[10, 11, 12]`. -/
def upBars3 : List Bar := [⟨1, none, 10, 0⟩, ⟨2, none, 11, 0⟩, ⟨3, none, 12, 0⟩]

/-- Closes `[10, 12, 11]` (a violation in the trailing window). -/
def mixedBars3 : List Bar := [⟨1, none, 10, 0⟩, ⟨2, none, 12, 0⟩, ⟨3, none, 11, 0⟩]

/-- The single action of `priceEqualBuyStrategy`. -/
def simpleBuyAction : StrategyAction :=
  ⟨.buy, .simple .price .equal 100, .daily, ⟨some .fixed_amount, some 100⟩⟩

/-- A flat bar at close `100`. -/
def flatBar : Bar := ⟨2, none, 100, 0⟩

/-- The gap-down bar of `gapDownData`. -/
def gapBar : Bar := ⟨2, some (193/2), 97, 0⟩

/-- A small portfolio holding two long shares of `"A"`. -/
def wPortfolio : Portfolio :=
  { cash := 10000, positions := [("A", 2)], positionCost := [("A", 193)],
    transactions := [], valueHistory := [] }

/-- A tracked day-trading entry on date `2` at the gap bar's open. -/
def wDayPos : DayPos := ⟨2, 193/2, 2⟩

/-- A simulation state with one tracked day-trading entry. -/
def wState : SimState :=
  { portfolio := wPortfolio, dayPositions := [("A", wDayPos)], historyData := [] }

/-- The number of day-trading entry (buy) transactions of a completed run. -/
def countDayTradeBuyTx : BacktestOutput → Option Nat
  | .error _ => none
  | .ok r => some (r.transactions.filter
      (fun tx => tx.isDayTrading && (tx.type = TxType.buy || tx.type = TxType.cover_short))).length

theorem outputSharpe_eq_map (o : BacktestOutput) :
    outputSharpe o = (outputValues o).map sharpeOfValues := by
  cases o <;> rfl

theorem runBacktest_eq_ok (strategy : Strategy) (sd : StockData) (d : Nat) (ds : List Nat)
    (htd : tradingDatesOf sd = d :: ds) :
    runBacktest strategy sd = .ok (mkResult strategy sd (d :: ds)) := by
  simp only [runBacktest]
  rw [htd]

/-! ## Claims -/

set_option maxRecDepth 40000

/-- **C1, counterexample.**  The claimed reconciliation inequality
`|final ValuePoint.value - (cash + Σ quantity × last transaction price)| ≤
0.01` does not hold for every completed run: buying at close `100` and then
marking the final date at close `150` (with no further transaction) leaves
a difference of `50`, and the run still completes with
`valuesConsistent = false`. -/
theorem C1_reconciliation_counterexample :
    outputValuesConsistent (runBacktest priceEqualBuyStrategy staleLastPriceData) = some false ∧
    outputReconDiff (runBacktest priceEqualBuyStrategy staleLastPriceData) = some 50 := by
  constructor <;> with_unfolding_all decide

/-- **C1, amended.**  On every completed run the `valuesConsistent` flag
records exactly the comparison `|final ValuePoint.value - (cash + Σ quantity
× last transaction price)| ≤ 0.01`, and the result object is returned
regardless of whether the check passes (on the error result both sides are
absent); the inequality itself, however, is not an invariant of the
engine. -/
theorem C1_flag_records_comparison (strategy : Strategy) (sd : StockData) :
    outputValuesConsistent (runBacktest strategy sd) =
      (outputReconDiff (runBacktest strategy sd)).map (fun d => decide (|d| ≤ 1/100)) := by
  cases htd : tradingDatesOf sd with
  | nil =>
      have herr : runBacktest strategy sd = .error "No trading data available" := by
        simp only [runBacktest]; rw [htd]
      rw [herr]; rfl
  | cons d ds =>
      rw [runBacktest_eq_ok strategy sd d ds htd]
      simp only [outputValuesConsistent, outputReconDiff, Option.map, mkResult]
      rw [jsAbs_eq_abs]

/-- **C4.**  The `Consecutive(days, direction)` evaluator returns `false`
on insufficient history, and on sufficient history returns `true` exactly
when every adjacent pair of closes in the trailing `days`-bar window
strictly increases (`up`), strictly decreases (`down`), or is exactly equal
(`unchanged`); in particular `days = 3, up` is `false` over two bars,
`true` over closes `[10, 11, 12]`, and `false` over `[10, 12, 11]`. -/
theorem C4_consecutive_condition :
    (∀ (h : List Bar) (days : Nat) (dir : Direction), 1 ≤ days →
      (checkConsecutiveCondition h days dir = true ↔
        days ≤ h.length ∧
          List.Chain' (directionRel dir) ((h.map Bar.close).drop (h.length - days)))) ∧
    checkConsecutiveCondition upBars2 3 .up = false ∧
    checkConsecutiveCondition upBars3 3 .up = true ∧
    checkConsecutiveCondition mixedBars3 3 .up = false := by
  refine ⟨?_, by with_unfolding_all decide, by with_unfolding_all decide,
    by with_unfolding_all decide⟩
  intro h days dir hdays
  by_cases hlen : h.length < days
  · simp [checkConsecutiveCondition, hlen, not_le.mpr hlen]
  · have hne : days ≠ 0 := by omega
    have hle : days ≤ h.length := not_lt.mp hlen
    rw [checkConsecutiveCondition, if_neg hlen, sliceLast, if_neg hne, consecutiveScan_iff,
      List.map_drop]
    simp [hle]

/-- **C4 witness.** -/
theorem C4_consecutive_condition_witness :
    1 ≤ 3 ∧
    (checkConsecutiveCondition upBars3 3 .up = true ↔
      3 ≤ upBars3.length ∧
        List.Chain' (directionRel .up) ((upBars3.map Bar.close).drop (upBars3.length - 3))) :=
  ⟨by decide, C4_consecutive_condition.1 upBars3 3 .up (by decide)⟩

/-- **C2, counterexample.**  A day-trading gap entry is not always closed at
EOD: a later `short` action on the same date flips the position negative, so
the closeout guard `positions[symbol] > 0` fails — the run ends with one
day-trading buy, no EOD-exit transaction, and `positions["A"] =
-1530/193 ≠ 0`. -/
theorem C2_day_trade_counterexample :
    countDayTradeBuyTx (runBacktest dayTradeFlipStrategy gapDownData) = some 1 ∧
    countEodExits (runBacktest dayTradeFlipStrategy gapDownData) = some 0 ∧
    outputPositionOf (runBacktest dayTradeFlipStrategy gapDownData) "A" = some (-1530/193) := by
  refine ⟨?_, ?_, ?_⟩ <;> with_unfolding_all decide

/-- **C5.**  The amount calculator's post-check guarantees a strictly
positive dollar amount (and non-negative share count) on every input:
whenever the resolved dollars or shares are `≤ 0` the result is overridden
to the `$100` floor (with `100/price` shares, `0` if the price is not
positive); in particular `{type: shares, value: 10}` at price `0` first
resolves to `{dollars: 0, shares: 10}` and is then overridden to
`{dollars: 100, shares: 0}`. -/
theorem C5_amount_floor :
    (∀ (rule? : Option AmountRule) (pv price : ℚ),
        0 < (calculateAmount rule? pv price).dollars ∧
        0 ≤ (calculateAmount rule? pv price).shares) ∧
    (∀ (rule : AmountRule) (pv price : ℚ),
        calculateAmount (some rule) pv price =
          if (calculateAmountRaw rule pv price).dollars ≤ 0 ∨
              (calculateAmountRaw rule pv price).shares ≤ 0
          then amountFloor price else calculateAmountRaw rule pv price) ∧
    (∀ pv : ℚ, calculateAmountRaw ⟨some .shares, some 10⟩ pv 0 = ⟨0, 10⟩) ∧
    (∀ pv : ℚ, calculateAmount (some ⟨some .shares, some 10⟩) pv 0 = ⟨100, 0⟩) := by
  refine ⟨calculateAmount_pos, fun rule pv price => rfl, fun pv => ?_, fun pv => ?_⟩
  · simp [calculateAmountRaw]
  · simp [calculateAmount, calculateAmountRaw, amountFloor]

/-- **C7.**  The engine returns the explicit error object
`{ error: "No trading data available" }` exactly when the union of bar
dates across all symbols is empty; a completed run (with its normal result
fields) is produced in every other case, as the two sides of the output sum
type cannot coincide. -/
theorem C7_no_data_error (strategy : Strategy) (sd : StockData) :
    runBacktest strategy sd = .error "No trading data available" ↔ allBarDates sd = [] := by
  rw [← tradingDatesOf_eq_nil]
  simp only [runBacktest]
  cases htd : tradingDatesOf sd with
  | nil => simp
  | cons d ds => simp

/-- **C2, amended.**  For a triggered buy action whose condition is a
day-trading gap pattern: the order is sized and the recorded buy (or
cover-short) transaction priced at the bar's open (falling back to the
close when the open is missing or zero, per JS `open || close`), and the
entry is tracked for EOD exit; and *provided the tracked position is still
strictly positive after all of the date's actions* (and the symbol's bar is
found), the EOD closeout force-sells the entire position at that same
date's close, recording a synthetic exit transaction carrying the entry
price, exit price and realized profit/loss, and leaving the position and
its cost basis at exactly `0` — entry and forced exit sharing the date. -/
theorem C2_day_trade_flow :
    (∀ (action : StrategyAction) (sym : Sym) (date : Nat) (bar : Bar) (tpv : ℚ)
        (p : Portfolio) (dps : List (Sym × DayPos)),
        action.type = .buy → isDayTradingCondition action.condition = true →
        executeAction action sym date bar tpv p dps =
          executeBuy sym date bar true
            (calculateAmount (some action.amount) tpv (jsOr bar.openPrice bar.close))
            action.amount p dps) ∧
    (∀ (sym : Sym) (date : Nat) (bar : Bar) (ad : AmountData) (rule : AmountRule)
        (p : Portfolio) (dps : List (Sym × DayPos)), ad.dollars ≤ p.cash →
        (∃ tx : Transaction,
          (executeBuy sym date bar true ad rule p dps).1.transactions = p.transactions ++ [tx] ∧
          tx.price = jsOr bar.openPrice bar.close ∧
          tx.quantity = ad.shares ∧
          tx.amount = ad.shares * jsOr bar.openPrice bar.close ∧
          tx.isDayTrading = true ∧
          tx.type = (if (alookup p.positions sym).getD 0 < 0 then TxType.cover_short
                     else TxType.buy)) ∧
        (executeBuy sym date bar true ad rule p dps).1.cash = p.cash - ad.dollars ∧
        alookup (executeBuy sym date bar true ad rule p dps).2 sym =
          some ⟨date, jsOr bar.openPrice bar.close, ad.shares⟩) ∧
    (∀ (sd : StockData) (date : Nat) (st : SimState) (sym : Sym) (pos : DayPos)
        (bar : Bar) (q : ℚ),
        (sym, pos) ∈ st.dayPositions → (st.dayPositions.map Prod.fst).Nodup →
        pos.entryDate = date →
        alookup st.portfolio.positions sym = some q → 0 < q →
        findBar ((alookup sd sym).getD []) date = some bar →
        alookup (eodClose sd date st).portfolio.positions sym = some 0 ∧
        alookup (eodClose sd date st).portfolio.positionCost sym = some 0 ∧
        eodExitTx sym date pos bar q ∈ (eodClose sd date st).portfolio.transactions) := by
  refine ⟨executeAction_dayTrade_eq, executeBuy_dayTrading, ?_⟩
  intro sd date st sym pos bar q h1 h2 h3 h4 h5 h6
  exact eodFold_closes_entry sd date st.dayPositions st sym pos bar q h1 h2 h3 h4 h5 h6

/-- **C2 witness.** -/
theorem C2_day_trade_flow_witness :
    (((("A" : Sym), wDayPos) ∈ wState.dayPositions) ∧ (0 : ℚ) < 2 ∧
      alookup wState.portfolio.positions "A" = some 2) ∧
    alookup (eodClose gapDownData 2 wState).portfolio.positions "A" = some 0 ∧
    alookup (eodClose gapDownData 2 wState).portfolio.positionCost "A" = some 0 ∧
    eodExitTx "A" 2 wDayPos gapBar 2 ∈ (eodClose gapDownData 2 wState).portfolio.transactions :=
  ⟨⟨by with_unfolding_all decide, by decide, by with_unfolding_all decide⟩,
    C2_day_trade_flow.2.2 gapDownData 2 wState "A" wDayPos gapBar 2
      (by with_unfolding_all decide) (by decide) rfl
      (by with_unfolding_all decide) (by decide) (by with_unfolding_all decide)⟩

/-- **C3.**  A triggered buy action executes only when cash covers the
resolved dollar amount: then the new cash is exactly `cash - dollars`
(hence non-negative) and one buy/cover-short transaction is appended;
otherwise the order is silently dropped — the portfolio (cash, positions,
cost basis, ledger) and the day-trading tracker are returned unchanged. -/
theorem C3_buy_cash_gate (action : StrategyAction) (sym : Sym) (date : Nat) (bar : Bar)
    (tpv : ℚ) (p : Portfolio) (dps : List (Sym × DayPos)) (hbuy : action.type = .buy) :
    ((buyAmountOf action bar tpv).dollars ≤ p.cash →
      (executeAction action sym date bar tpv p dps).1.cash =
          p.cash - (buyAmountOf action bar tpv).dollars ∧
      0 ≤ (executeAction action sym date bar tpv p dps).1.cash ∧
      ∃ tx : Transaction,
        (executeAction action sym date bar tpv p dps).1.transactions = p.transactions ++ [tx] ∧
        tx.type = (if (alookup p.positions sym).getD 0 < 0 then TxType.cover_short
                   else TxType.buy)) ∧
    (p.cash < (buyAmountOf action bar tpv).dollars →
      executeAction action sym date bar tpv p dps = (p, dps)) := by
  rw [executeAction_buy_eq action sym date bar tpv p dps hbuy]
  constructor
  · intro h
    obtain ⟨h1, h2, tx, h3, h4, _, _⟩ := executeBuy_executed sym date bar _ _ _ p dps h
    exact ⟨h1, h2, tx, h3, h4⟩
  · intro h
    exact executeBuy_insufficient _ _ _ _ _ _ _ _ h

/-- **C3 witness.** -/
theorem C3_buy_cash_gate_witness :
    (buyAmountOf simpleBuyAction flatBar 10000).dollars ≤ initState.portfolio.cash ∧
    (executeAction simpleBuyAction "A" 2 flatBar 10000 initState.portfolio []).1.cash =
      initState.portfolio.cash - (buyAmountOf simpleBuyAction flatBar 10000).dollars ∧
    0 ≤ (executeAction simpleBuyAction "A" 2 flatBar 10000 initState.portfolio []).1.cash :=
  ⟨by with_unfolding_all decide,
    ((C3_buy_cash_gate simpleBuyAction "A" 2 flatBar 10000 initState.portfolio [] rfl).1
      (by with_unfolding_all decide)).1,
    ((C3_buy_cash_gate simpleBuyAction "A" 2 flatBar 10000 initState.portfolio [] rfl).1
      (by with_unfolding_all decide)).2.1⟩

/-- **C9.**  On every completed run, `metrics.maxDrawdown` equals the
spec-modelled maximum over all value-history points of
`(peak - value)/peak × 100` with `peak` the running maximum of the series
itself: the code's seeding of the peak at the `$10,000` initial cash
coincides with it because the first `ValuePoint` of every run is exactly
the initial cash.  (Both sides are absent on the error result.) -/
theorem C9_max_drawdown (strategy : Strategy) (sd : StockData) :
    outputMaxDrawdown (runBacktest strategy sd) =
      (outputValues (runBacktest strategy sd)).map maxDrawdownSpec := by
  cases htd : tradingDatesOf sd with
  | nil =>
      have herr : runBacktest strategy sd = .error "No trading data available" := by
        simp only [runBacktest]; rw [htd]
      rw [herr]; rfl
  | cons d ds =>
      rw [runBacktest_eq_ok strategy sd d ds htd]
      obtain ⟨tail, htail⟩ := runFold_first_value strategy sd (d :: ds) 0 d (ds.enumFrom 1)
      have hvh : (finalStateOf strategy sd (d :: ds)).portfolio.valueHistory =
          ⟨d, initialCash, initialCash, 0⟩ :: tail := by
        simp only [finalStateOf]
        exact htail
      simp only [outputMaxDrawdown, outputValues, Option.map, mkResult]
      rw [hvh, maxDrawdownCode_eq_spec _ _ rfl]

/-- **C10.**  With non-negative bar prices, the cash balance stays
non-negative after every operation: buys execute only behind the
`cash ≥ dollars` gate (leaving `cash - dollars ≥ 0`), sells and explicit
shorts only add non-negative proceeds, the EOD closeout only adds
`quantity × close` with a positive quantity, and hence every completed run
returns a non-negative cash balance from the `$10,000` start. -/
theorem C10_cash_never_negative :
    (∀ (sym : Sym) (date : Nat) (bar : Bar) (isDT : Bool) (ad : AmountData)
        (rule : AmountRule) (p : Portfolio) (dps : List (Sym × DayPos)),
        0 ≤ p.cash → 0 ≤ (executeBuy sym date bar isDT ad rule p dps).1.cash) ∧
    (∀ (sym : Sym) (date : Nat) (bar : Bar) (ad : AmountData) (rule : AmountRule)
        (p : Portfolio) (dps : List (Sym × DayPos)),
        0 ≤ p.cash → 0 < ad.dollars → 0 ≤ ad.shares → 0 ≤ bar.close →
        0 ≤ (executeSell sym date bar ad rule p dps).1.cash) ∧
    (∀ (sym : Sym) (date : Nat) (bar : Bar) (ad : AmountData) (rule : AmountRule)
        (p : Portfolio),
        0 ≤ p.cash → 0 ≤ ad.dollars → 0 ≤ (executeShort sym date bar ad rule p).cash) ∧
    (∀ (sd : StockData) (date : Nat) (acc : SimState) (entry : Sym × DayPos),
        0 ≤ acc.portfolio.cash → NonnegData sd →
        0 ≤ (eodStep sd date acc entry).portfolio.cash) ∧
    (∀ (strategy : Strategy) (sd : StockData) (r : BacktestResult),
        NonnegData sd → runBacktest strategy sd = .ok r → 0 ≤ r.cash) := by
  refine ⟨executeBuy_cash_nonneg, executeSell_cash_nonneg, executeShort_cash_nonneg,
    eodStep_cash_nonneg, ?_⟩
  intro strategy sd r hnn hr
  exact runBacktest_cash_nonneg strategy sd r hnn hr

theorem nonnegData_oneBar : NonnegData oneBarData := by
  intro e he b hb
  simp only [oneBarData, List.mem_singleton] at he
  subst he
  simp only [List.mem_singleton] at hb
  subst hb
  refine ⟨by norm_num, ?_⟩
  intro o ho
  simp at ho

/-- **C10 witness.** -/
theorem C10_cash_never_negative_witness :
    (0 ≤ initState.portfolio.cash ∧
      0 ≤ (executeBuy "A" 2 flatBar false ⟨100, 1⟩ ⟨some .fixed_amount, some 100⟩
            initState.portfolio []).1.cash) ∧
    (NonnegData oneBarData ∧ tradingDatesOf oneBarData = [1] ∧
      0 ≤ (mkResult emptyStrategy oneBarData [1]).cash) :=
  ⟨⟨by decide,
    C10_cash_never_negative.1 "A" 2 flatBar false ⟨100, 1⟩ ⟨some .fixed_amount, some 100⟩
      initState.portfolio [] (by decide)⟩,
   ⟨nonnegData_oneBar, by with_unfolding_all decide,
    C10_cash_never_negative.2.2.2.2 emptyStrategy oneBarData
      (mkResult emptyStrategy oneBarData [1]) nonnegData_oneBar
      (runBacktest_eq_ok emptyStrategy oneBarData 1 [] (by with_unfolding_all decide))⟩⟩

/-- **C6** (the code at the failing input).  With a single-point value
history the returns list is empty, so `avgReturn = 0/0 = NaN`, the standard
deviation is `NaN` as well, the `=== 0` guard does not fire, and the
user-visible Sharpe ratio is `NaN` — contradicting the claimed
"defined as 0 … including for a … single-point value-history series".
A flat two-point series does hit the guard and yields `0` as claimed. -/
theorem C6_sharpe_nan_single_point :
    outputSharpe (runBacktest emptyStrategy oneBarData) = some JsNumR.nan ∧
    sharpeOfValues [10000, 10000] = JsNumR.fin 0 := by
  constructor
  · have htd : tradingDatesOf oneBarData = [1] := by with_unfolding_all decide
    rw [runBacktest_eq_ok emptyStrategy oneBarData 1 [] htd]
    have hvh : (finalStateOf emptyStrategy oneBarData [1]).portfolio.valueHistory =
        [⟨1, initialCash, initialCash, 0⟩] := by
      have henum : ([1] : List Nat).enum = [(0, 1)] := rfl
      simp only [finalStateOf, henum, List.foldl_cons, List.foldl_nil]
      rw [processDate_valueHistory]
      simp [initState, markToMarket]
    simp only [outputSharpe, mkResult]
    rw [hvh]
    have hvar : variancePreJs [initialCash] = JsNum.nan := by with_unfolding_all decide
    have havg : avgReturnJs [initialCash] = JsNum.nan := by with_unfolding_all decide
    simp only [List.map_cons, List.map_nil]
    unfold sharpeOfValues stdDeviationOf
    rw [hvar, havg]
    simp [jsSqrtR, JsNum.toR, jsDivR, jsMulR]
  · have hvar : variancePreJs [10000, 10000] = JsNum.fin 0 := by with_unfolding_all decide
    unfold sharpeOfValues stdDeviationOf
    rw [hvar]
    simp [jsSqrtR, Real.sqrt_zero]

/-- **C8.**  A sell against a strictly positive long position never flips it
negative (given a positive close price): share-based sells are capped at
the long quantity and dollar/percentage sells at `quantity × close` (with
the quantity back-computed), so the post-trade quantity is `≥ 0`.  With a
non-positive pre-trade quantity the dollar amount is uncapped (opening or
extending a short) and share-based sells are bounded only by the
`MAX_SAFE_INTEGER` sentinel; the recorded type is `sell` exactly when the
pre-trade quantity was positive, else `short`. -/
theorem C8_sell_caps (sym : Sym) (date : Nat) (bar : Bar) (ad : AmountData)
    (rule : AmountRule) (p : Portfolio) (dps : List (Sym × DayPos)) :
    (0 < (alookup p.positions sym).getD 0 → 0 < bar.close →
      0 ≤ (alookup (executeSell sym date bar ad rule p dps).1.positions sym).getD 0) ∧
    (∃ tx : Transaction,
      (executeSell sym date bar ad rule p dps).1.transactions = p.transactions ++ [tx] ∧
      tx.type = (if 0 < (alookup p.positions sym).getD 0 then TxType.sell else TxType.short) ∧
      (rule.tag = some AmountTag.shares → 0 < (alookup p.positions sym).getD 0 →
        tx.quantity = min ad.shares ((alookup p.positions sym).getD 0)) ∧
      (rule.tag ≠ some AmountTag.shares → 0 < (alookup p.positions sym).getD 0 →
        tx.amount = min ad.dollars ((alookup p.positions sym).getD 0 * bar.close) ∧
        tx.quantity = tx.amount / bar.close) ∧
      (rule.tag ≠ some AmountTag.shares → (alookup p.positions sym).getD 0 ≤ 0 →
        tx.amount = ad.dollars ∧ tx.quantity = ad.shares) ∧
      (rule.tag = some AmountTag.shares → (alookup p.positions sym).getD 0 ≤ 0 →
        tx.quantity = min ad.shares maxSafeInteger)) := by
  constructor
  · intro hq hc
    simp only [executeSell, jsMin_eq_min]
    rw [alookup_aset_self, Option.getD_some]
    split_ifs with h₁
    · exact sub_nonneg.mpr (min_le_right _ _)
    · have h1 : min ad.dollars ((alookup p.positions sym).getD 0 * bar.close) ≤
          (alookup p.positions sym).getD 0 * bar.close := min_le_right _ _
      have h2 : min ad.dollars ((alookup p.positions sym).getD 0 * bar.close) / bar.close ≤
          (alookup p.positions sym).getD 0 * bar.close / bar.close :=
        (div_le_div_iff_of_pos_right hc).mpr h1
      rw [mul_div_cancel_right₀ _ (ne_of_gt hc)] at h2
      simp only
      linarith
  · simp only [executeSell, jsMin_eq_min]
    refine ⟨_, rfl, rfl, ?_, ?_, ?_, ?_⟩
    · intro h h'
      simp [h, h']
    · intro h h'
      simp [h, h']
    · intro h h'
      simp [h, not_lt.mpr h']
    · intro h h'
      simp [h, not_lt.mpr h']

/-- **C8 witness.** -/
theorem C8_sell_caps_witness :
    0 < (alookup wPortfolio.positions "A").getD 0 ∧ (0 : ℚ) < flatBar.close ∧
    0 ≤ (alookup (executeSell "A" 2 flatBar ⟨100, 1⟩ ⟨some .fixed_amount, some 100⟩
          wPortfolio []).1.positions "A").getD 0 :=
  ⟨by with_unfolding_all decide, by with_unfolding_all decide,
    (C8_sell_caps "A" 2 flatBar ⟨100, 1⟩ ⟨some .fixed_amount, some 100⟩ wPortfolio []).1
      (by with_unfolding_all decide) (by with_unfolding_all decide)⟩

end NLBacktester
